import Mathlib

/-!
Verification of the kubelet DRA (dynamic resource allocation) manager
(`pkg/kubelet/cm/dra/manager.go`).

The Go source is shallowly embedded: the in-memory claim-info cache is a list
of records keyed by (claim name, namespace); the external collaborators (the
control-plane client `resourceclaim`/API-server lookups, the plugin gRPC
clients and the checkpoint writer) are an explicit environment of pure
functions; `PrepareResources` and `UnprepareResources` become state-passing
functions that additionally record the list of plugin RPC batches they
dispatched.  The claim-info cache primitives (`get`, `add`, `delete`,
`addPodReference`, `deletePodReference`, `setPrepared`, `setCDIDevices`,
`hasPodReference`) live in `claiminfo.go`, which is not part of the given
sources; they are modelled from the specification (sections 3 and 4.1).
-/

set_option autoImplicit false

namespace DraManager

/-- One resource handle of a claim: the grant a driver issued.  Mirrors the
`resourcev1alpha2.ResourceHandle` fields read by the manager: `DriverName`,
`Data` and the optional `StructuredData` payload (kept opaque). -/
structure ResourceHandle where
  driverName : String
  data : String
  structuredData : Option String
deriving Repr, DecidableEq

/-- The claim object fetched from the API server, restricted to the fields the
manager reads: identity, the status driver name, the allocation's resource
handles and the `ReservedFor` pod UID set. -/
structure ResourceClaim where
  name : String
  namespc : String
  uid : String
  driverName : String
  resourceHandles : List ResourceHandle
  reservedFor : List String
deriving Repr, DecidableEq

/-- In-memory claim record (`ClaimInfo`).  Modelled from the spec, section 3:
identity fields, the pod-reference set, the resource handles copied from the
claim, the per-plugin prepared device lists with their annotations, and the
monotonic `prepared` flag. -/
structure ClaimInfo where
  driverName : String
  claimUID : String
  claimName : String
  namespc : String
  podUIDs : List String
  resourceHandles : List ResourceHandle
  cdiDevices : List (String × List String)
  annotationList : List String
  prepared : Bool
deriving Repr, DecidableEq

/-- An entry of `container.Resources.Claims` is just a name; a container is
identified by its name and the claim names it lists. -/
structure Container where
  name : String
  claims : List String
deriving Repr, DecidableEq

/-- An entry of `pod.Spec.ResourceClaims`. -/
structure PodResourceClaim where
  name : String
deriving Repr, DecidableEq

/-- The pod fields the manager reads. -/
structure Pod where
  name : String
  uid : String
  namespc : String
  resourceClaims : List PodResourceClaim
  containers : List Container
  initContainers : List Container
deriving Repr, DecidableEq

/-- The wire request for one claim (`drapb.Claim`). -/
structure DraClaim where
  namespc : String
  uid : String
  name : String
  resourceHandle : String
  structuredResourceHandle : List String
deriving Repr, DecidableEq

/-- Per-claim result inside a plugin response: an error string (empty on
success) and the CDI device list. -/
structure ClaimResult where
  error : String
  cdiDevices : List String
deriving Repr, DecidableEq

/-- External collaborators of the manager, as pure functions:
`resolveName` is `resourceclaim.Name` (claim name may be absent),
`fetchClaim` the API-server `Get`, `isForPod` the ownership check,
`connect` is `dra.NewDRAPluginClient`, `nodePrepare`/`nodeUnprepare` the two
plugin RPCs (a response is a list of per-claim-UID results, mirroring the
Go response map), and `checkpointOk` the outcome of `syncToCheckpoint`. -/
structure Env where
  resolveName : Pod → PodResourceClaim → Except String (Option String × Bool)
  fetchClaim : String → String → Except String ResourceClaim
  isForPod : Pod → ResourceClaim → Except String Unit
  connect : String → Except String Unit
  nodePrepare : String → List DraClaim → Except String (List (String × ClaimResult))
  nodeUnprepare : String → List DraClaim → Except String (List (String × ClaimResult))
  checkpointOk : Bool

/-! ## The claim-info cache

Modelled from the spec, section 4.1: a keyed store of records, key =
(claim name, namespace).  `add` is only invoked by the manager after `get`
returned "absent" inside the same critical section, so insertion never
shadows a live record. -/

abbrev Cache := List ClaimInfo

/-- Whether a record has the given (claim name, namespace) key. -/
def keyMatch (ci : ClaimInfo) (name ns : String) : Bool :=
  ci.claimName == name && ci.namespc == ns

/-- Modelled from the spec: `cache.get(name, namespace)` — pure lookup. -/
def cacheGet (c : Cache) (name ns : String) : Option ClaimInfo :=
  c.find? (fun ci => keyMatch ci name ns)

/-- Modelled from the spec: `cache.add(record)` — insert a new record. -/
def cacheAdd (c : Cache) (ci : ClaimInfo) : Cache :=
  ci :: c

/-- Modelled from the spec: `cache.delete(name, namespace)`. -/
def cacheDelete (c : Cache) (name ns : String) : Cache :=
  c.filter (fun ci => !(keyMatch ci name ns))

/-- In Go the record returned by `get` is a pointer, so mutating it inside the
critical section updates the cached record in place; in the embedding the
in-place mutation becomes an update of the record stored under the key. -/
def cacheUpdate (c : Cache) (name ns : String) (f : ClaimInfo → ClaimInfo) : Cache :=
  c.map (fun ci => if keyMatch ci name ns then f ci else ci)

/-- Modelled from the spec: `cache.hasPodReference(uid)` — true when some
cached record still references the workload instance. -/
def hasPodReference (c : Cache) (uid : String) : Bool :=
  c.any (fun ci => ci.podUIDs.contains uid)

/-! ## ClaimInfo operations (modelled from the spec, claiminfo.go is absent) -/

/-- Modelled from the spec: `newClaimInfoFromClaim` builds a fresh record from
the claim descriptor — identity fields and resource handles copied, no pod
references, no prepared devices, `prepared` false. -/
def newClaimInfoFromClaim (claim : ResourceClaim) : ClaimInfo :=
  { driverName := claim.driverName
    claimUID := claim.uid
    claimName := claim.name
    namespc := claim.namespc
    podUIDs := []
    resourceHandles := claim.resourceHandles
    cdiDevices := []
    annotationList := []
    prepared := false }

/-- Modelled from the spec: `claimInfo.addPodReference(uid)` — set insertion. -/
def addPodReference (ci : ClaimInfo) (uid : String) : ClaimInfo :=
  if ci.podUIDs.contains uid then ci else { ci with podUIDs := uid :: ci.podUIDs }

/-- Modelled from the spec: `claimInfo.deletePodReference(uid)` — set removal. -/
def deletePodReference (ci : ClaimInfo) (uid : String) : ClaimInfo :=
  { ci with podUIDs := ci.podUIDs.filter (fun u => u != uid) }

/-- `claimInfo.isPrepared()`. -/
def isPrepared (ci : ClaimInfo) : Bool :=
  ci.prepared

/-- Modelled from the spec: `claimInfo.setPrepared()`. -/
def setPrepared (ci : ClaimInfo) : ClaimInfo :=
  { ci with prepared := true }

/-- Modelled from the spec: `claimInfo.setCDIDevices(plugin, devices)` — store
the device list the plugin returned and extend the annotation list; identity
fields, pod references and the `prepared` flag are untouched. -/
def setCDIDevices (ci : ClaimInfo) (plugin : String) (devices : List String) : ClaimInfo :=
  { ci with
    cdiDevices := (plugin, devices) :: ci.cdiDevices.filter (fun pd => pd.1 != plugin)
    annotationList := ci.annotationList ++ devices }

/-- `claimInfo.annotationsAsList()`. -/
def annotationsAsList (ci : ClaimInfo) : List String :=
  ci.annotationList

/-- `claimInfo.cdiDevicesAsList()`. -/
def cdiDevicesAsList (ci : ClaimInfo) : List String :=
  (ci.cdiDevices.map Prod.snd).flatten

/-! ## Pure helpers of manager.go -/

/-- `claimIsUsedByContainer` (manager.go): the container lists the pod claim's
name among its resource claims. -/
def claimIsUsedByContainer (podClaim : PodResourceClaim) (container : Container) : Bool :=
  container.claims.any (fun c => c == podClaim.name)

/-- `claimIsUsedByContainers` (manager.go). -/
def claimIsUsedByContainers (podClaim : PodResourceClaim) (containers : List Container) : Bool :=
  containers.any (fun c => claimIsUsedByContainer podClaim c)

/-- `claimIsUsedByPod` (manager.go): init containers first, then containers. -/
def claimIsUsedByPod (podClaim : PodResourceClaim) (pod : Pod) : Bool :=
  claimIsUsedByContainers podClaim pod.initContainers || claimIsUsedByContainers podClaim pod.containers

/-- Modelled from the spec: `resourceclaim.IsReservedForPod` — the pod's UID is
listed in the claim's `ReservedFor` set. -/
def isReservedForPod (pod : Pod) (claim : ResourceClaim) : Bool :=
  claim.reservedFor.any (fun u => u == pod.uid)

/-- `lookupClaimRequest` (manager.go): first request in the batch carrying the
given claim UID. -/
def lookupClaimRequest (claims : List DraClaim) (claimUID : String) : Option DraClaim :=
  claims.find? (fun c => c.uid == claimUID)

/-- The plugin name `PrepareResources` batches a resource handle under
(manager.go lines 154-160).  The source reads `claimInfo.DriverName` into
`pluginName` and, when it is empty, falls back to `claimInfo.DriverName`
again — the handle's own driver name is never consulted. -/
def preparePluginName (ci : ClaimInfo) (_rh : ResourceHandle) : String :=
  let pluginName := ci.driverName
  if pluginName == "" then ci.driverName else pluginName

/-- The plugin name `UnprepareResources` batches a resource handle under
(manager.go lines 384-390): the handle's driver name, falling back to the
claim's driver name when the handle's is empty. -/
def unpreparePluginName (ci : ClaimInfo) (rh : ResourceHandle) : String :=
  let pluginName := rh.driverName
  if pluginName == "" then ci.driverName else pluginName

/-- Construction of the wire request for one resource handle of a record
(`drapb.Claim`, shared by both RPC paths). -/
def mkDraClaim (ci : ClaimInfo) (rh : ResourceHandle) : DraClaim :=
  { namespc := ci.namespc
    uid := ci.claimUID
    name := ci.claimName
    resourceHandle := rh.data
    structuredResourceHandle :=
      match rh.structuredData with
      | some s => [s]
      | none => [] }

/-! ## Association-list helpers for the Go maps `batches`, `resourceClaims`,
`claimNames`.  Go map iteration order is unspecified; the embedding fixes
insertion order, which none of the verified properties depend on. -/

/-- Lookup in an association list (`m[k]` when the key may be absent). -/
def assocLookup {α : Type} (l : List (String × α)) (k : String) : Option α :=
  (l.find? (fun p => p.1 == k)).map Prod.snd

/-- `m[k] = v` — overwrite or insert. -/
def assocInsert {α : Type} (l : List (String × α)) (k : String) (v : α) : List (String × α) :=
  match l with
  | [] => [(k, v)]
  | (k', v') :: rest => if k' == k then (k, v) :: rest else (k', v') :: assocInsert rest k v

/-- `batches[k] = append(batches[k], v)`. -/
def assocAppend (l : List (String × List DraClaim)) (k : String) (v : DraClaim) :
    List (String × List DraClaim) :=
  match l with
  | [] => [(k, [v])]
  | (k', vs) :: rest =>
      if k' == k then (k', vs ++ [v]) :: rest else (k', vs) :: assocAppend rest k v

/-! ## Generic early-exit loop

Both per-claim loops and the per-response-entry loops abort at the first
error; the state reached so far is kept (in Go the function returns while the
mutations already applied to the cache persist). -/

/-- Run `f` over the list, threading the state; stop at the first error and
return it with the state reached just before the failing step (a failing step
never mutates: in the source every early `return err` happens before or
instead of the cache mutation of that step). -/
def stepLoop {σ α : Type} (f : α → σ → Except String σ) : List α → σ → Except (String × σ) σ
  | [], st => .ok st
  | a :: l, st =>
    match f a st with
    | .error e => .error (e, st)
    | .ok st' => stepLoop f l st'

/-! ## PrepareResources -/

/-- Accumulated state of the per-claim loop of `PrepareResources`:
the cache, the `batches` map, the `resourceClaims` map (claim UID to claim)
and the list of claims for which the compensating `defer` was registered. -/
structure PrepState where
  cache : Cache
  batches : List (String × List DraClaim)
  resourceClaims : List (String × ResourceClaim)
  processed : List ResourceClaim
deriving Repr, DecidableEq

/-- The cache mutation of the per-claim prepare transaction: get-or-create the
record, then add the pod's reference to it. -/
def prepareTxnCache (pod : Pod) (resourceClaim : ResourceClaim) (c : Cache) : Cache :=
  cacheUpdate
    (if (cacheGet c resourceClaim.name resourceClaim.namespc).isSome then c
     else cacheAdd c (newClaimInfoFromClaim resourceClaim))
    resourceClaim.name resourceClaim.namespc (fun ci => addPodReference ci pod.uid)

/-- Body of the `m.cache.withLock` transaction of the per-claim prepare loop
(manager.go lines 125-174): get-or-create the record, add the pod reference,
stop if already prepared, otherwise remember the claim and append one request
per resource handle to that handle's plugin batch. -/
def prepareClaimTxn (pod : Pod) (resourceClaim : ResourceClaim) (st : PrepState) : PrepState :=
  let cache1 := prepareTxnCache pod resourceClaim st.cache
  match cacheGet cache1 resourceClaim.name resourceClaim.namespc with
  | none => { st with cache := cache1 }
  | some claimInfo =>
    if isPrepared claimInfo then { st with cache := cache1 }
    else
      let resourceClaims := assocInsert st.resourceClaims claimInfo.claimUID resourceClaim
      let batches := claimInfo.resourceHandles.foldl
        (fun bs rh => assocAppend bs (preparePluginName claimInfo rh) (mkDraClaim claimInfo rh))
        st.batches
      { st with cache := cache1, batches := batches, resourceClaims := resourceClaims }

/-- One iteration of the per-claim loop of `PrepareResources`
(manager.go lines 71-178): resolve the claim name (absent means skip), fetch
the claim, run the ownership check when required, reject a pod that is not in
the claim's `ReservedFor` set, skip claims no container uses, register the
compensating defer and run the cache transaction. -/
def preparePodClaimStep (env : Env) (pod : Pod) (podClaim : PodResourceClaim)
    (st : PrepState) : Except String PrepState :=
  match env.resolveName pod podClaim with
  | .error e => .error e
  | .ok (none, _) => .ok st
  | .ok (some claimName, mustCheckOwner) =>
    match env.fetchClaim pod.namespc claimName with
    | .error e => .error e
    | .ok resourceClaim =>
      match (if mustCheckOwner then env.isForPod pod resourceClaim else .ok ()) with
      | .error e => .error e
      | .ok _ =>
        if !(isReservedForPod pod resourceClaim) then
          .error "pod is not allowed to use resource claim"
        else if !(claimIsUsedByPod podClaim pod) then
          .ok st
        else
          .ok (prepareClaimTxn pod resourceClaim
                { st with processed := st.processed ++ [resourceClaim] })

/-- Processing of one entry of a `NodePrepareResources` response
(manager.go lines 194-220): the UID must belong to the request batch, the
per-claim error must be empty, then the devices are merged into the cached
record under the lock. -/
def processPrepareResponseEntry (pluginName : String) (claims : List DraClaim)
    (resourceClaims : List (String × ResourceClaim)) (entry : String × ClaimResult)
    (cache : Cache) : Except String Cache :=
  match lookupClaimRequest claims entry.1 with
  | none => .error "NodePrepareResources returned result for unknown claim UID"
  | some _ =>
    if entry.2.error != "" then .error "NodePrepareResources failed for claim"
    else
      match assocLookup resourceClaims entry.1 with
      | none => .error "nil resource claim"
      | some claim =>
        match cacheGet cache claim.name claim.namespc with
        | none => .error "unable to get claim info for claim"
        | some _ =>
          .ok (cacheUpdate cache claim.name claim.namespc
                (fun ci => setCDIDevices ci pluginName entry.2.cdiDevices))

/-- Outcome of the per-plugin RPC fan-out: an error (or none), the cache and
the trace of RPC batches actually dispatched to plugins. -/
structure PhaseBOut where
  err : Option String
  cache : Cache
  trace : List (String × List DraClaim)
deriving Repr, DecidableEq

/-- Generic per-plugin batch loop shared by the two RPC fan-outs
(manager.go lines 183-226 and 414-455): connect to the plugin, dispatch the
batched RPC (recorded in the trace), process each response entry, then check
the response named as many claims as the request (Go computes the signed
difference `len(claims) - len(response.Claims)`). -/
def phaseBLoop (connect : String → Except String Unit)
    (call : String → List DraClaim → Except String (List (String × ClaimResult)))
    (entryStep : String → List DraClaim → (String × ClaimResult) → Cache → Except String Cache)
    (connectErr callErr leftOutErr : String) :
    List (String × List DraClaim) → Cache → List (String × List DraClaim) → PhaseBOut
  | [], cache, tr => { err := none, cache := cache, trace := tr }
  | (p, claims) :: rest, cache, tr =>
    match connect p with
    | .error _ => { err := some connectErr, cache := cache, trace := tr }
    | .ok _ =>
      match call p claims with
      | .error _ => { err := some callErr, cache := cache, trace := tr ++ [(p, claims)] }
      | .ok response =>
        match stepLoop (entryStep p claims) response cache with
        | .error (e, cache') => { err := some e, cache := cache', trace := tr ++ [(p, claims)] }
        | .ok cache' =>
          if (Int.ofNat claims.length) - (Int.ofNat response.length) != 0 then
            { err := some leftOutErr, cache := cache', trace := tr ++ [(p, claims)] }
          else phaseBLoop connect call entryStep connectErr callErr leftOutErr rest cache' (tr ++ [(p, claims)])

/-- The `NodePrepareResources` fan-out. -/
def preparePhaseB (env : Env) (resourceClaims : List (String × ResourceClaim))
    (batches : List (String × List DraClaim)) (cache : Cache)
    (tr : List (String × List DraClaim)) : PhaseBOut :=
  phaseBLoop env.connect env.nodePrepare
    (fun p claims entry c => processPrepareResponseEntry p claims resourceClaims entry c)
    "failed to get DRA Plugin client" "NodePrepareResources failed"
    "NodePrepareResources left out claims" batches cache tr

/-- One step of the final mark-prepared loop (manager.go lines 231-237). -/
def markPreparedStep (entry : String × ResourceClaim) (cache : Cache) : Except String Cache :=
  match cacheGet cache entry.2.name entry.2.namespc with
  | none => .error "unable to get claim info for claim"
  | some _ => .ok (cacheUpdate cache entry.2.name entry.2.namespc setPrepared)

/-- The final transaction of `PrepareResources` (manager.go lines 229-248):
mark every claim recorded in `resourceClaims` as prepared, then checkpoint. -/
def preparePhaseC (env : Env) (resourceClaims : List (String × ResourceClaim))
    (cache : Cache) : Except (String × Cache) Cache :=
  match stepLoop markPreparedStep resourceClaims cache with
  | .error p => .error p
  | .ok cache' =>
    if env.checkpointOk then .ok cache'
    else .error ("failed to checkpoint claimInfo state", cache')

/-- One compensating defer (manager.go lines 113-122): delete this pod's
reference from the claim's cached record if the record exists. -/
def compStep (pod : Pod) (claim : ResourceClaim) (c : Cache) : Cache :=
  match cacheGet c claim.name claim.namespc with
  | none => c
  | some _ => cacheUpdate c claim.name claim.namespc (fun ci => deletePodReference ci pod.uid)

/-- The compensating defers: on an error return one defer per processed claim
runs, in LIFO order. -/
def compensate (pod : Pod) (processed : List ResourceClaim) (cache : Cache) : Cache :=
  processed.foldr (compStep pod) cache

/-- Result of one manager call: the returned error (none on success), the
final in-memory cache, the RPC batches dispatched, and the claims for which a
compensating defer was registered. -/
structure ManagerOutcome where
  result : Option String
  cache : Cache
  rpcs : List (String × List DraClaim)
  processed : List ResourceClaim
deriving Repr, DecidableEq

/-- `ManagerImpl.PrepareResources` (manager.go lines 68-251): per-claim loop,
per-plugin `NodePrepareResources` fan-out, final mark-prepared-and-checkpoint
transaction; on every error path the registered defers remove this pod's
references before the function returns. -/
def prepareResources (env : Env) (pod : Pod) (cache : Cache) : ManagerOutcome :=
  let st0 : PrepState := { cache := cache, batches := [], resourceClaims := [], processed := [] }
  match stepLoop (preparePodClaimStep env pod) pod.resourceClaims st0 with
  | .error (e, st) =>
      { result := some e, cache := compensate pod st.processed st.cache, rpcs := [],
        processed := st.processed }
  | .ok st =>
    match preparePhaseB env st.resourceClaims st.batches st.cache [] with
    | { err := some e, cache := cache', trace := tr } =>
        { result := some e, cache := compensate pod st.processed cache', rpcs := tr,
          processed := st.processed }
    | { err := none, cache := cache', trace := tr } =>
      match preparePhaseC env st.resourceClaims cache' with
      | .error (e, cache'') =>
          { result := some e, cache := compensate pod st.processed cache'', rpcs := tr,
            processed := st.processed }
      | .ok cache'' =>
          { result := none, cache := cache'', rpcs := tr, processed := st.processed }

/-! ## UnprepareResources -/

/-- Accumulated state of the per-claim loop of `UnprepareResources`. -/
structure UnprepState where
  cache : Cache
  batches : List (String × List DraClaim)
  claimNames : List (String × String)
deriving Repr, DecidableEq

/-- Body of the `m.cache.withLock` transaction of the per-claim unprepare loop
(manager.go lines 358-405): an uncached claim is a no-op; when more than one
pod still references the record only this pod's reference is removed; otherwise
the claim name is remembered and one request per resource handle is appended to
that handle's plugin batch (the reference stays until the RPC succeeds). -/
def unprepareClaimTxn (pod : Pod) (claimName : String) (st : UnprepState) : UnprepState :=
  match cacheGet st.cache claimName pod.namespc with
  | none => st
  | some claimInfo =>
    if claimInfo.podUIDs.length > 1 then
      let cache' := cacheUpdate st.cache claimName pod.namespc
        (fun ci => deletePodReference ci pod.uid)
      { st with cache := cache' }
    else
      let claimNames := assocInsert st.claimNames claimInfo.claimUID claimInfo.claimName
      let batches := claimInfo.resourceHandles.foldl
        (fun bs rh => assocAppend bs (unpreparePluginName claimInfo rh) (mkDraClaim claimInfo rh))
        st.batches
      { st with batches := batches, claimNames := claimNames }

/-- One iteration of the per-claim loop of `UnprepareResources`
(manager.go lines 344-409). -/
def unpreparePodClaimStep (env : Env) (pod : Pod) (podClaim : PodResourceClaim)
    (st : UnprepState) : Except String UnprepState :=
  match env.resolveName pod podClaim with
  | .error e => .error e
  | .ok (none, _) => .ok st
  | .ok (some claimName, _) => .ok (unprepareClaimTxn pod claimName st)

/-- Processing of one entry of a `NodeUnprepareResources` response
(manager.go lines 426-449): the UID must belong to the request batch, the
per-claim error must be empty, then the record is deleted from the cache under
the lock (a UID missing from `claimNames` yields the Go zero string). -/
def processUnprepareResponseEntry (claimNames : List (String × String)) (ns : String)
    (claims : List DraClaim) (entry : String × ClaimResult) (cache : Cache) :
    Except String Cache :=
  match lookupClaimRequest claims entry.1 with
  | none => .error "NodeUnprepareResources returned result for unknown claim UID"
  | some _ =>
    if entry.2.error != "" then .error "NodeUnprepareResources failed for claim"
    else .ok (cacheDelete cache ((assocLookup claimNames entry.1).getD "") ns)

/-- The `NodeUnprepareResources` fan-out. -/
def unprepPhaseB (env : Env) (claimNames : List (String × String)) (ns : String)
    (batches : List (String × List DraClaim)) (cache : Cache)
    (tr : List (String × List DraClaim)) : PhaseBOut :=
  phaseBLoop env.connect env.nodeUnprepare
    (fun _p claims entry c => processUnprepareResponseEntry claimNames ns claims entry c)
    "failed to get DRA Plugin client" "NodeUnprepareResources failed"
    "NodeUnprepareResources left out claims" batches cache tr

/-- `ManagerImpl.UnprepareResources` (manager.go lines 341-469): per-claim
loop, per-plugin `NodeUnprepareResources` fan-out deleting each released
record, final checkpoint under the read lock.  There are no compensating
defers: deletions already applied are kept on every error path. -/
def unprepareResources (env : Env) (pod : Pod) (cache : Cache) : ManagerOutcome :=
  let st0 : UnprepState := { cache := cache, batches := [], claimNames := [] }
  match stepLoop (unpreparePodClaimStep env pod) pod.resourceClaims st0 with
  | .error (e, st) => { result := some e, cache := st.cache, rpcs := [], processed := [] }
  | .ok st =>
    match unprepPhaseB env st.claimNames pod.namespc st.batches st.cache [] with
    | { err := some e, cache := cache', trace := tr } =>
        { result := some e, cache := cache', rpcs := tr, processed := [] }
    | { err := none, cache := cache', trace := tr } =>
      if env.checkpointOk then { result := none, cache := cache', rpcs := tr, processed := [] }
      else
        { result := some "failed to checkpoint claimInfo state", cache := cache', rpcs := tr,
          processed := [] }

/-! ## Read-only operations -/

/-- Result of a manager read that may crash: the Go code can dereference a nil
claim-name pointer, modelled as the distinguished `nilDeref` outcome. -/
inductive Outcome (α : Type) where
  | ok : α → Outcome α
  | err : String → Outcome α
  | nilDeref : Outcome α
deriving Repr, DecidableEq

/-- The container info `GetResources` assembles. -/
structure ContainerInfo where
  annotationList : List String
  cdiDevices : List String
deriving Repr, DecidableEq

/-- Inner loop of `GetResources` over `container.Resources.Claims`
(manager.go lines 307-331): entries whose name differs from the pod claim's
are skipped; for a match the cached record must exist and its annotations and
devices are appended. -/
def getResourcesClaimLoop (cache : Cache) (ns : String) (claimName : String)
    (podClaimName : String) : List String → ContainerInfo → Except String ContainerInfo
  | [], acc => .ok acc
  | cname :: rest, acc =>
    if podClaimName != cname then getResourcesClaimLoop cache ns claimName podClaimName rest acc
    else
      match cacheGet cache claimName ns with
      | none => .error "unable to get claim info for claim"
      | some ci =>
        getResourcesClaimLoop cache ns claimName podClaimName rest
          { annotationList := acc.annotationList ++ annotationsAsList ci
            cdiDevices := acc.cdiDevices ++ cdiDevicesAsList ci }

/-- Outer loop of `GetResources` (manager.go lines 296-332): a claim reference
that resolves to no claim name is skipped before any cache lookup. -/
def getResourcesLoop (env : Env) (pod : Pod) (container : Container) (cache : Cache) :
    List PodResourceClaim → ContainerInfo → Outcome ContainerInfo
  | [], acc => .ok acc
  | pc :: rest, acc =>
    match env.resolveName pod pc with
    | .error _ => .err "list resource claims"
    | .ok (none, _) => getResourcesLoop env pod container cache rest acc
    | .ok (some claimName, _) =>
      match getResourcesClaimLoop cache pod.namespc claimName pc.name container.claims acc with
      | .error e => .err e
      | .ok acc' => getResourcesLoop env pod container cache rest acc'

/-- `ManagerImpl.GetResources` (manager.go lines 292-335). -/
def getResources (env : Env) (pod : Pod) (container : Container) (cache : Cache) :
    Outcome ContainerInfo :=
  getResourcesLoop env pod container cache pod.resourceClaims { annotationList := [], cdiDevices := [] }

/-- Inner loop of `GetContainerClaimInfos` over `container.Resources.Claims`
(manager.go lines 489-505).  Unlike `GetResources` there is no skip of an
absent claim name before the match: on a name match the code dereferences
`*claimName`, which crashes when the name is absent. -/
def getClaimInfosClaimLoop (cache : Cache) (ns : String) (claimNameOpt : Option String)
    (podClaimName : String) : List String → List ClaimInfo → Outcome (List ClaimInfo)
  | [], acc => .ok acc
  | cname :: rest, acc =>
    if podClaimName != cname then getClaimInfosClaimLoop cache ns claimNameOpt podClaimName rest acc
    else
      match claimNameOpt with
      | none => .nilDeref
      | some claimName =>
        match cacheGet cache claimName ns with
        | none => .err "unable to get claim info for claim"
        | some ci => getClaimInfosClaimLoop cache ns claimNameOpt podClaimName rest (acc ++ [ci])

/-- Outer loop of `GetContainerClaimInfos` (manager.go lines 483-506). -/
def getContainerClaimInfosLoop (env : Env) (pod : Pod) (container : Container) (cache : Cache) :
    List PodResourceClaim → List ClaimInfo → Outcome (List ClaimInfo)
  | [], acc => .ok acc
  | pc :: rest, acc =>
    match env.resolveName pod pc with
    | .error _ => .err "determine resource claim information"
    | .ok (claimNameOpt, _) =>
      match getClaimInfosClaimLoop cache pod.namespc claimNameOpt pc.name container.claims acc with
      | .err e => .err e
      | .nilDeref => .nilDeref
      | .ok acc' => getContainerClaimInfosLoop env pod container cache rest acc'

/-- `ManagerImpl.GetContainerClaimInfos` (manager.go lines 480-508). -/
def getContainerClaimInfos (env : Env) (pod : Pod) (container : Container) (cache : Cache) :
    Outcome (List ClaimInfo) :=
  getContainerClaimInfosLoop env pod container cache pod.resourceClaims []

/-- `ManagerImpl.PodMightNeedToUnprepareResources` (manager.go lines 473-477):
a read of `cache.hasPodReference` under the lock; no cache state is written,
which the embedding reflects by returning only the boolean. -/
def podMightNeedToUnprepareResources (cache : Cache) (uid : String) : Bool :=
  hasPodReference cache uid

/-! ## Cache-evolution predicates used by the invariant proofs -/

/-- A record-updating function that does not change the record's key. -/
def KeyPres (f : ClaimInfo → ClaimInfo) : Prop :=
  ∀ ci, (f ci).claimName = ci.claimName ∧ (f ci).namespc = ci.namespc

/-- Every record survives from `c₁` to `c₂` and its `prepared` flag never
drops from true to false (the evolution `PrepareResources` performs: records
are never deleted). -/
def PrepEvolve (c₁ c₂ : Cache) : Prop :=
  ∀ n ns ci, cacheGet c₁ n ns = some ci →
    ∃ ci', cacheGet c₂ n ns = some ci' ∧ (ci.prepared = true → ci'.prepared = true)

/-- No record is newly marked prepared between `c₁` and `c₂`: a prepared
record of `c₂` was already prepared in `c₁`. -/
def NoNewPrepared (c₁ c₂ : Cache) : Prop :=
  ∀ n ns ci', cacheGet c₂ n ns = some ci' → ci'.prepared = true →
    ∃ ci, cacheGet c₁ n ns = some ci ∧ ci.prepared = true

/-- The evolution `UnprepareResources` performs: every record of `c₂` stems
from a record of `c₁` under the same key with the same `prepared` flag
(records are only mutated by reference removal or deleted). -/
def UnprepEvolve (c₁ c₂ : Cache) : Prop :=
  ∀ n ns ci', cacheGet c₂ n ns = some ci' →
    ∃ ci, cacheGet c₁ n ns = some ci ∧ ci'.prepared = ci.prepared

/-- Pod references of workloads other than `u` survive from `c₁` to `c₂`. -/
def KeepsOtherRefs (u : String) (c₁ c₂ : Cache) : Prop :=
  ∀ n ns v, v ≠ u → ∀ ci, cacheGet c₁ n ns = some ci → v ∈ ci.podUIDs →
    ∃ ci', cacheGet c₂ n ns = some ci' ∧ v ∈ ci'.podUIDs

/-- A key never gains the pod reference `u` between `c₁` and `c₂`: if `u` is
referenced under the key in `c₂` it already was in `c₁`. -/
def NoNewRef (u : String) (c₁ c₂ : Cache) : Prop :=
  ∀ n ns ci', cacheGet c₂ n ns = some ci' → u ∈ ci'.podUIDs →
    ∃ ci, cacheGet c₁ n ns = some ci ∧ u ∈ ci.podUIDs

/-- Relative to the baseline cache `c₀`: any reference to `u` found in `c`
either already existed in `c₀` or sits under one of the listed keys (the keys
of the claims processed so far, whose additions the compensating defers will
undo). -/
def RefsOnlyAt (u : String) (c₀ : Cache) (keys : List (String × String)) (c : Cache) : Prop :=
  ∀ n ns ci', cacheGet c n ns = some ci' → u ∈ ci'.podUIDs →
    (∃ ci, cacheGet c₀ n ns = some ci ∧ u ∈ ci.podUIDs) ∨ (n, ns) ∈ keys

/-- The keys of a list of claims. -/
def claimKeys (l : List ResourceClaim) : List (String × String) :=
  l.map (fun rc => (rc.name, rc.namespc))

/-! ## Concrete inputs for the witnesses and counterexamples -/

/-- A resource handle whose own driver name differs from the claim's. -/
def rhC1 : ResourceHandle := { driverName := "driver-b", data := "handle-data", structuredData := none }

/-- Claim whose status driver is `driver-a` while its only handle names
`driver-b`. -/
def rcC1 : ResourceClaim :=
  { name := "claim-a", namespc := "ns", uid := "uid-a", driverName := "driver-a",
    resourceHandles := [rhC1], reservedFor := ["pod-p"] }

def envC1 : Env :=
  { resolveName := fun _ _ => .ok (some "claim-a", false)
    fetchClaim := fun ns n => if ns == "ns" && n == "claim-a" then .ok rcC1 else .error "claim not found"
    isForPod := fun _ _ => .ok ()
    connect := fun _ => .ok ()
    nodePrepare := fun _ claims =>
      .ok (claims.map (fun c => (c.uid, { error := "", cdiDevices := ["dev0"] })))
    nodeUnprepare := fun _ claims =>
      .ok (claims.map (fun c => (c.uid, { error := "", cdiDevices := [] })))
    checkpointOk := true }

def podC1 : Pod :=
  { name := "p", uid := "pod-p", namespc := "ns", resourceClaims := [{ name := "rc" }],
    containers := [{ name := "c", claims := ["rc"] }], initContainers := [] }

/-- A prepared cached record for `rcC1`, referenced by `pod-p` only. -/
def ciC1 : ClaimInfo :=
  { driverName := "driver-a", claimUID := "uid-a", claimName := "claim-a", namespc := "ns",
    podUIDs := ["pod-p"], resourceHandles := [rhC1], cdiDevices := [], annotationList := [],
    prepared := true }

def rhC2 : ResourceHandle := { driverName := "", data := "handle-data", structuredData := none }

def rcC2 : ResourceClaim :=
  { name := "claim-b", namespc := "ns", uid := "uid-b", driverName := "driver-a",
    resourceHandles := [rhC2], reservedFor := ["pod-p"] }

def envC2 : Env :=
  { resolveName := fun _ _ => .ok (some "claim-b", false)
    fetchClaim := fun ns n => if ns == "ns" && n == "claim-b" then .ok rcC2 else .error "claim not found"
    isForPod := fun _ _ => .ok ()
    connect := fun _ => .ok ()
    nodePrepare := fun _ claims =>
      .ok (claims.map (fun c => (c.uid, { error := "", cdiDevices := ["dev0"] })))
    nodeUnprepare := fun _ claims =>
      .ok (claims.map (fun c => (c.uid, { error := "", cdiDevices := [] })))
    checkpointOk := true }

def podC2 : Pod :=
  { name := "p", uid := "pod-p", namespc := "ns", resourceClaims := [{ name := "rc" }],
    containers := [{ name := "c", claims := ["rc"] }], initContainers := [] }

def pcC2 : PodResourceClaim := { name := "rc" }

/-- A prepared record for `rcC2`. -/
def ciC2 : ClaimInfo :=
  { driverName := "driver-a", claimUID := "uid-b", claimName := "claim-b", namespc := "ns",
    podUIDs := ["pod-q"], resourceHandles := [rhC2], cdiDevices := [], annotationList := [],
    prepared := true }

def rhC3 : ResourceHandle := { driverName := "", data := "handle-data", structuredData := none }

def envC3 : Env :=
  { resolveName := fun _ _ => .ok (some "claim-c", false)
    fetchClaim := fun _ _ => .error "unused"
    isForPod := fun _ _ => .ok ()
    connect := fun _ => .ok ()
    nodePrepare := fun _ claims =>
      .ok (claims.map (fun c => (c.uid, { error := "", cdiDevices := ["dev0"] })))
    nodeUnprepare := fun _ claims =>
      .ok (claims.map (fun c => (c.uid, { error := "", cdiDevices := [] })))
    checkpointOk := true }

def podC3 : Pod :=
  { name := "p", uid := "pod-p", namespc := "ns", resourceClaims := [{ name := "rc" }],
    containers := [{ name := "c", claims := ["rc"] }], initContainers := [] }

/-- Record of `claim-c`, prepared and referenced by the two pods `pod-p` and
`pod-q`. -/
def ciC3 : ClaimInfo :=
  { driverName := "driver-a", claimUID := "uid-c", claimName := "claim-c", namespc := "ns",
    podUIDs := ["pod-p", "pod-q"], resourceHandles := [rhC3], cdiDevices := [],
    annotationList := [], prepared := true }

def cacheC3 : Cache := [ciC3]

def rhC4 : ResourceHandle := { driverName := "driver-b", data := "handle-data", structuredData := none }

def rcC4 : ResourceClaim :=
  { name := "claim-d", namespc := "ns", uid := "uid-d", driverName := "driver-a",
    resourceHandles := [rhC4], reservedFor := ["pod-p"] }

/-- Environment whose plugin answers every `NodePrepareResources` request with
an empty response: fewer claims than requested. -/
def envC4 : Env :=
  { resolveName := fun _ _ => .ok (some "claim-d", false)
    fetchClaim := fun ns n => if ns == "ns" && n == "claim-d" then .ok rcC4 else .error "claim not found"
    isForPod := fun _ _ => .ok ()
    connect := fun _ => .ok ()
    nodePrepare := fun _ _ => .ok []
    nodeUnprepare := fun _ claims =>
      .ok (claims.map (fun c => (c.uid, { error := "", cdiDevices := [] })))
    checkpointOk := true }

def podC4 : Pod :=
  { name := "p", uid := "pod-p", namespc := "ns", resourceClaims := [{ name := "rc" }],
    containers := [{ name := "c", claims := ["rc"] }], initContainers := [] }

/-- The record `PrepareResources` creates for `rcC4` after adding `pod-p`'s
reference. -/
def ciC4 : ClaimInfo :=
  { driverName := "driver-a", claimUID := "uid-d", claimName := "claim-d", namespc := "ns",
    podUIDs := ["pod-p"], resourceHandles := [rhC4], cdiDevices := [], annotationList := [],
    prepared := false }

/-- State of the per-claim prepare loop of `envC4`/`podC4` run from the empty
cache. -/
def stC4 : PrepState :=
  { cache := [ciC4], batches := [("driver-a", [mkDraClaim ciC4 rhC4])],
    resourceClaims := [("uid-d", rcC4)], processed := [rcC4] }

def rhC5 : ResourceHandle := { driverName := "driver-b", data := "handle-data", structuredData := none }

def rcC5c : ResourceClaim :=
  { name := "claim-c", namespc := "ns", uid := "uid-c", driverName := "driver-a",
    resourceHandles := [rhC5], reservedFor := ["pod-p"] }

/-- A claim whose reservation set does not contain `pod-p`. -/
def rcC5d : ResourceClaim :=
  { name := "claim-d", namespc := "ns", uid := "uid-d", driverName := "driver-a",
    resourceHandles := [rhC5], reservedFor := [] }

def envC5 : Env :=
  { resolveName := fun _ pc =>
      if pc.name == "rc-c" then .ok (some "claim-c", false) else .ok (some "claim-d", false)
    fetchClaim := fun ns n =>
      if ns == "ns" && n == "claim-c" then .ok rcC5c
      else if ns == "ns" && n == "claim-d" then .ok rcC5d
      else .error "claim not found"
    isForPod := fun _ _ => .ok ()
    connect := fun _ => .ok ()
    nodePrepare := fun _ claims =>
      .ok (claims.map (fun c => (c.uid, { error := "", cdiDevices := ["dev0"] })))
    nodeUnprepare := fun _ claims =>
      .ok (claims.map (fun c => (c.uid, { error := "", cdiDevices := [] })))
    checkpointOk := true }

/-- Pod `pod-p` referencing both claims; it already holds a reference on the
prepared record of `claim-c` from an earlier successful call. -/
def podC5 : Pod :=
  { name := "p", uid := "pod-p", namespc := "ns",
    resourceClaims := [{ name := "rc-c" }, { name := "rc-d" }],
    containers := [{ name := "c", claims := ["rc-c", "rc-d"] }], initContainers := [] }

/-- The pre-existing record of `claim-c`: prepared, already referenced by
`pod-p` before the call begins. -/
def ciC5 : ClaimInfo :=
  { driverName := "driver-a", claimUID := "uid-c", claimName := "claim-c", namespc := "ns",
    podUIDs := ["pod-p"], resourceHandles := [rhC5], cdiDevices := [], annotationList := [],
    prepared := true }

def cacheC5 : Cache := [ciC5]

/-- The record of `claim-c` after the failing call: the pre-existing
reference of `pod-p` has been removed by the compensating defer. -/
def ciC5after : ClaimInfo := { ciC5 with podUIDs := [] }

def rhC6 : ResourceHandle := { driverName := "driver-b", data := "handle-data", structuredData := none }

/-- Environment whose checkpoint write fails while the plugin RPCs succeed. -/
def envC6 : Env :=
  { resolveName := fun _ _ => .ok (some "claim-e", false)
    fetchClaim := fun _ _ => .error "unused"
    isForPod := fun _ _ => .ok ()
    connect := fun _ => .ok ()
    nodePrepare := fun _ claims =>
      .ok (claims.map (fun c => (c.uid, { error := "", cdiDevices := ["dev0"] })))
    nodeUnprepare := fun _ claims =>
      .ok (claims.map (fun c => (c.uid, { error := "", cdiDevices := [] })))
    checkpointOk := false }

def podC6 : Pod :=
  { name := "p", uid := "pod-p", namespc := "ns", resourceClaims := [{ name := "rc" }],
    containers := [{ name := "c", claims := ["rc"] }], initContainers := [] }

/-- Record of `claim-e` whose last reference `pod-p` is being removed. -/
def ciC6 : ClaimInfo :=
  { driverName := "driver-a", claimUID := "uid-e", claimName := "claim-e", namespc := "ns",
    podUIDs := ["pod-p"], resourceHandles := [rhC6], cdiDevices := [], annotationList := [],
    prepared := true }

def cacheC6 : Cache := [ciC6]

/-- State of the per-claim unprepare loop of `envC6`/`podC6` on `cacheC6`. -/
def stC6 : UnprepState :=
  { cache := [ciC6], batches := [("driver-b", [mkDraClaim ciC6 rhC6])],
    claimNames := [("uid-e", "claim-e")] }

def rhC7 : ResourceHandle := { driverName := "driver-b", data := "handle-data", structuredData := none }

/-- A claim that does not list `pod-p` in its reservation set. -/
def rcC7 : ResourceClaim :=
  { name := "claim-f", namespc := "ns", uid := "uid-f", driverName := "driver-a",
    resourceHandles := [rhC7], reservedFor := ["pod-other"] }

def envC7 : Env :=
  { resolveName := fun _ _ => .ok (some "claim-f", false)
    fetchClaim := fun ns n => if ns == "ns" && n == "claim-f" then .ok rcC7 else .error "claim not found"
    isForPod := fun _ _ => .ok ()
    connect := fun _ => .ok ()
    nodePrepare := fun _ claims =>
      .ok (claims.map (fun c => (c.uid, { error := "", cdiDevices := ["dev0"] })))
    nodeUnprepare := fun _ claims =>
      .ok (claims.map (fun c => (c.uid, { error := "", cdiDevices := [] })))
    checkpointOk := true }

def podC7 : Pod :=
  { name := "p", uid := "pod-p", namespc := "ns", resourceClaims := [{ name := "rc" }],
    containers := [{ name := "c", claims := ["rc"] }], initContainers := [] }

def pcC7 : PodResourceClaim := { name := "rc" }

/-- Environment in which every claim reference resolves to no claim name, so
both manager calls are no-ops on the cache. -/
def envC8 : Env :=
  { resolveName := fun _ _ => .ok (none, false)
    fetchClaim := fun _ _ => .error "unused"
    isForPod := fun _ _ => .ok ()
    connect := fun _ => .ok ()
    nodePrepare := fun _ claims =>
      .ok (claims.map (fun c => (c.uid, { error := "", cdiDevices := ["dev0"] })))
    nodeUnprepare := fun _ claims =>
      .ok (claims.map (fun c => (c.uid, { error := "", cdiDevices := [] })))
    checkpointOk := true }

def podC8 : Pod :=
  { name := "p", uid := "pod-p", namespc := "ns", resourceClaims := [{ name := "rc" }],
    containers := [{ name := "c", claims := ["rc"] }], initContainers := [] }

/-- A prepared record used to witness the monotonicity statement. -/
def ciC8 : ClaimInfo :=
  { driverName := "driver-a", claimUID := "uid-g", claimName := "claim-g", namespc := "ns",
    podUIDs := ["pod-q"], resourceHandles := [], cdiDevices := [], annotationList := [],
    prepared := true }

def cacheC8 : Cache := [ciC8]

/-- Environment in which the pod's claim reference resolves to no concrete
claim name (a valid situation the managers must skip). -/
def envC10 : Env :=
  { resolveName := fun _ _ => .ok (none, false)
    fetchClaim := fun _ _ => .error "unused"
    isForPod := fun _ _ => .ok ()
    connect := fun _ => .ok ()
    nodePrepare := fun _ claims =>
      .ok (claims.map (fun c => (c.uid, { error := "", cdiDevices := ["dev0"] })))
    nodeUnprepare := fun _ claims =>
      .ok (claims.map (fun c => (c.uid, { error := "", cdiDevices := [] })))
    checkpointOk := true }

def podC10 : Pod :=
  { name := "p", uid := "pod-p", namespc := "ns", resourceClaims := [{ name := "rc" }],
    containers := [{ name := "c", claims := ["rc"] }], initContainers := [] }

def containerC10 : Container := { name := "c", claims := ["rc"] }

/-! # Theorems

First the toolkit about the cache primitives, then invariants of the two
orchestration calls, then the claim theorems. -/

theorem keyMatch_eq_true {ci : ClaimInfo} {n ns : String} :
    keyMatch ci n ns = true ↔ ci.claimName = n ∧ ci.namespc = ns := by
  simp [keyMatch]

theorem keyMatch_keyPres {f : ClaimInfo → ClaimInfo} (hf : KeyPres f) (ci : ClaimInfo)
    (n ns : String) : keyMatch (f ci) n ns = keyMatch ci n ns := by
  simp [keyMatch, (hf ci).1, (hf ci).2]

theorem keyMatch_false_of_ne {ci : ClaimInfo} {n ns : String}
    (h : ¬(ci.claimName = n ∧ ci.namespc = ns)) : keyMatch ci n ns = false := by
  cases ht : keyMatch ci n ns
  · rfl
  · exact absurd (keyMatch_eq_true.mp ht) h

theorem cacheGet_update_self {c : Cache} {n ns : String} {f : ClaimInfo → ClaimInfo}
    (hf : KeyPres f) : cacheGet (cacheUpdate c n ns f) n ns = (cacheGet c n ns).map f := by
  induction c with
  | nil => rfl
  | cons ci c ih =>
    by_cases h : keyMatch ci n ns
    · simp [cacheGet, cacheUpdate, List.find?, h, keyMatch_keyPres hf]
    · simpa [cacheGet, cacheUpdate, List.find?, h] using ih

theorem cacheGet_update_ne {c : Cache} {n ns n' ns' : String} {f : ClaimInfo → ClaimInfo}
    (hf : KeyPres f) (h : ¬(n' = n ∧ ns' = ns)) :
    cacheGet (cacheUpdate c n ns f) n' ns' = cacheGet c n' ns' := by
  induction c with
  | nil => rfl
  | cons ci c ih =>
    by_cases hm : keyMatch ci n ns
    · have hne : keyMatch ci n' ns' = false := by
        rcases keyMatch_eq_true.mp hm with ⟨h1, h2⟩
        refine keyMatch_false_of_ne (fun hc => h ?_)
        exact ⟨hc.1.symm.trans h1, hc.2.symm.trans h2⟩
      have hne' : keyMatch (f ci) n' ns' = false := by
        rw [keyMatch_keyPres hf]; exact hne
      simp [cacheGet, cacheUpdate, List.find?, hm, hne, hne'] at *
      exact ih
    · simp [cacheGet, cacheUpdate, List.find?, hm] at *
      cases hx : keyMatch ci n' ns' <;> simp [hx, ih]

theorem cacheGet_add_self {c : Cache} {ci : ClaimInfo} :
    cacheGet (cacheAdd c ci) ci.claimName ci.namespc = some ci := by
  simp [cacheGet, cacheAdd, List.find?, keyMatch]

theorem cacheGet_add_ne {c : Cache} {ci : ClaimInfo} {n ns : String}
    (h : ¬(n = ci.claimName ∧ ns = ci.namespc)) :
    cacheGet (cacheAdd c ci) n ns = cacheGet c n ns := by
  have hm : keyMatch ci n ns = false :=
    keyMatch_false_of_ne (fun hc => h ⟨hc.1.symm, hc.2.symm⟩)
  simp [cacheGet, cacheAdd, List.find?, hm]

theorem cacheGet_delete_self {c : Cache} {n ns : String} :
    cacheGet (cacheDelete c n ns) n ns = none := by
  induction c with
  | nil => rfl
  | cons ci c ih =>
    by_cases hm : keyMatch ci n ns
    · simp [cacheGet, cacheDelete, hm] at *
    · simp [cacheGet, cacheDelete, List.find?, hm] at *

theorem cacheGet_delete_ne {c : Cache} {n ns n' ns' : String} (h : ¬(n' = n ∧ ns' = ns)) :
    cacheGet (cacheDelete c n ns) n' ns' = cacheGet c n' ns' := by
  induction c with
  | nil => rfl
  | cons ci c ih =>
    by_cases hm : keyMatch ci n ns
    · have hne : keyMatch ci n' ns' = false := by
        rcases keyMatch_eq_true.mp hm with ⟨h1, h2⟩
        refine keyMatch_false_of_ne (fun hc => h ?_)
        exact ⟨hc.1.symm.trans h1, hc.2.symm.trans h2⟩
      simp [cacheGet, cacheDelete, List.find?, hm, hne] at *
      exact ih
    · simp [cacheGet, cacheDelete, List.find?, hm] at *
      cases hx : keyMatch ci n' ns' <;> simp [hx, ih]

theorem addPodReference_fields (ci : ClaimInfo) (u : String) :
    (addPodReference ci u).claimName = ci.claimName ∧
    (addPodReference ci u).namespc = ci.namespc ∧
    (addPodReference ci u).prepared = ci.prepared ∧
    (addPodReference ci u).claimUID = ci.claimUID ∧
    (addPodReference ci u).driverName = ci.driverName ∧
    (addPodReference ci u).resourceHandles = ci.resourceHandles := by
  unfold addPodReference; split <;> exact ⟨rfl, rfl, rfl, rfl, rfl, rfl⟩

theorem keyPres_addPodReference (u : String) : KeyPres (fun ci => addPodReference ci u) :=
  fun ci => ⟨(addPodReference_fields ci u).1, (addPodReference_fields ci u).2.1⟩

theorem keyPres_deletePodReference (u : String) : KeyPres (fun ci => deletePodReference ci u) :=
  fun _ => ⟨rfl, rfl⟩

theorem keyPres_setPrepared : KeyPres setPrepared :=
  fun _ => ⟨rfl, rfl⟩

theorem keyPres_setCDIDevices (p : String) (d : List String) :
    KeyPres (fun ci => setCDIDevices ci p d) :=
  fun _ => ⟨rfl, rfl⟩

theorem mem_addPodReference {ci : ClaimInfo} {u v : String} :
    v ∈ (addPodReference ci u).podUIDs ↔ v ∈ ci.podUIDs ∨ v = u := by
  unfold addPodReference
  split
  · rename_i h
    constructor
    · exact fun hv => Or.inl hv
    · rintro (hv | rfl)
      · exact hv
      · exact List.mem_of_elem_eq_true h
  · simp only [List.mem_cons]
    tauto

theorem mem_deletePodReference {ci : ClaimInfo} {u v : String} :
    v ∈ (deletePodReference ci u).podUIDs ↔ v ∈ ci.podUIDs ∧ v ≠ u := by
  simp [deletePodReference]

theorem stepLoop_ok_inv {σ α : Type} {f : α → σ → Except String σ} {P : σ → Prop}
    (hf : ∀ a st st', f a st = .ok st' → P st → P st') :
    ∀ (l : List α) (st st' : σ), stepLoop f l st = .ok st' → P st → P st' := by
  intro l
  induction l with
  | nil =>
    intro st st' h hp
    simp only [stepLoop] at h
    injection h with h
    exact h ▸ hp
  | cons a l ih =>
    intro st st' h hp
    simp only [stepLoop] at h
    cases hfa : f a st with
    | error e => rw [hfa] at h; cases h
    | ok st1 => rw [hfa] at h; exact ih st1 st' h (hf a st st1 hfa hp)

theorem stepLoop_error_inv {σ α : Type} {f : α → σ → Except String σ} {P : σ → Prop}
    (hf : ∀ a st st', f a st = .ok st' → P st → P st') :
    ∀ (l : List α) (st : σ) (e : String) (stE : σ),
      stepLoop f l st = .error (e, stE) → P st → P stE := by
  intro l
  induction l with
  | nil =>
    intro st e stE h _
    simp only [stepLoop] at h
    cases h
  | cons a l ih =>
    intro st e stE h hp
    simp only [stepLoop] at h
    cases hfa : f a st with
    | error e' =>
      rw [hfa] at h
      injection h with h
      cases h
      exact hp
    | ok st1 => rw [hfa] at h; exact ih st1 e stE h (hf a st st1 hfa hp)

theorem stepLoop_error_of_mem {σ α : Type} {f : α → σ → Except String σ} {a : α}
    (herr : ∀ st, ∃ e, f a st = .error e) :
    ∀ (l : List α) (st : σ), a ∈ l → ∃ e stE, stepLoop f l st = .error (e, stE) := by
  intro l
  induction l with
  | nil => intro st ha; cases ha
  | cons b l ih =>
    intro st ha
    cases hfb : f b st with
    | error e => exact ⟨e, st, by simp [stepLoop, hfb]⟩
    | ok st1 =>
      rcases List.mem_cons.mp ha with rfl | ha'
      · rcases herr st with ⟨e, he⟩
        rw [he] at hfb
        cases hfb
      · rcases ih st1 ha' with ⟨e, stE, h⟩
        exact ⟨e, stE, by simp [stepLoop, hfb, h]⟩

theorem phaseBLoop_cache_inv {connect : String → Except String Unit}
    {call : String → List DraClaim → Except String (List (String × ClaimResult))}
    {entryStep : String → List DraClaim → (String × ClaimResult) → Cache → Except String Cache}
    {cE lE oE : String} {P : Cache → Prop}
    (hstep : ∀ p claims e c c', entryStep p claims e c = .ok c' → P c → P c') :
    ∀ (batches : List (String × List DraClaim)) (cache : Cache)
      (tr : List (String × List DraClaim)), P cache →
      P (phaseBLoop connect call entryStep cE lE oE batches cache tr).cache := by
  intro batches
  induction batches with
  | nil => intro cache tr hp; exact hp
  | cons b rest ih =>
    intro cache tr hp
    obtain ⟨p, claims⟩ := b
    cases hc : connect p with
    | error e => simp only [phaseBLoop, hc]; exact hp
    | ok u =>
      cases hcall : call p claims with
      | error e => simp only [phaseBLoop, hc, hcall]; exact hp
      | ok response =>
        cases hsl : stepLoop (entryStep p claims) response cache with
        | error pr =>
          obtain ⟨e, cache'⟩ := pr
          simp only [phaseBLoop, hc, hcall, hsl]
          exact stepLoop_error_inv (fun a st st' h hq => hstep p claims a st st' h hq)
            response cache e cache' hsl hp
        | ok cache' =>
          have hp' : P cache' :=
            stepLoop_ok_inv (fun a st st' h hq => hstep p claims a st st' h hq)
              response cache cache' hsl hp
          simp only [phaseBLoop, hc, hcall, hsl]
          split
          · exact hp'
          · exact ih cache' (tr ++ [(p, claims)]) hp'

theorem phaseBLoop_ok_complete {connect : String → Except String Unit}
    {call : String → List DraClaim → Except String (List (String × ClaimResult))}
    {entryStep : String → List DraClaim → (String × ClaimResult) → Cache → Except String Cache}
    {cE lE oE : String} :
    ∀ (batches : List (String × List DraClaim)) (cache : Cache)
      (tr : List (String × List DraClaim)),
      (phaseBLoop connect call entryStep cE lE oE batches cache tr).err = none →
      ∀ p claims, (p, claims) ∈ batches →
        ∃ resp, connect p = .ok () ∧ call p claims = .ok resp ∧ claims.length = resp.length := by
  intro batches
  induction batches with
  | nil => intro cache tr _ p claims hmem; cases hmem
  | cons b rest ih =>
    intro cache tr hok p claims hmem
    obtain ⟨p0, claims0⟩ := b
    cases hc : connect p0 with
    | error e => simp only [phaseBLoop, hc] at hok; cases hok
    | ok u =>
      cases hcall : call p0 claims0 with
      | error e => simp only [phaseBLoop, hc, hcall] at hok; cases hok
      | ok response =>
        cases hsl : stepLoop (entryStep p0 claims0) response cache with
        | error pr =>
          obtain ⟨e, cacheE⟩ := pr
          simp only [phaseBLoop, hc, hcall, hsl] at hok
          cases hok
        | ok cache' =>
          simp only [phaseBLoop, hc, hcall, hsl] at hok
          by_cases hlen : (Int.ofNat claims0.length) - (Int.ofNat response.length) != 0
          · rw [if_pos hlen] at hok; cases hok
          · rw [if_neg hlen] at hok
            have hl : claims0.length = response.length := by
              simp only [bne_iff_ne, ne_eq, not_not, sub_eq_zero] at hlen
              exact Int.ofNat.inj hlen
            rcases List.mem_cons.mp hmem with heq | hmem'
            · cases heq
              cases u
              exact ⟨response, hc, hcall, hl⟩
            · exact ih cache' (tr ++ [(p0, claims0)]) hok p claims hmem'

theorem phaseBLoop_trace_mono {connect : String → Except String Unit}
    {call : String → List DraClaim → Except String (List (String × ClaimResult))}
    {entryStep : String → List DraClaim → (String × ClaimResult) → Cache → Except String Cache}
    {cE lE oE : String} :
    ∀ (batches : List (String × List DraClaim)) (cache : Cache)
      (tr : List (String × List DraClaim)),
      tr.length ≤ (phaseBLoop connect call entryStep cE lE oE batches cache tr).trace.length := by
  intro batches
  induction batches with
  | nil => intro cache tr; exact Nat.le_refl _
  | cons b rest ih =>
    intro cache tr
    obtain ⟨p, claims⟩ := b
    cases hc : connect p with
    | error e => simp only [phaseBLoop, hc]; exact Nat.le_refl _
    | ok u =>
      cases hcall : call p claims with
      | error e => simp only [phaseBLoop, hc, hcall]; simp
      | ok response =>
        cases hsl : stepLoop (entryStep p claims) response cache with
        | error pr =>
          obtain ⟨e, cacheE⟩ := pr
          simp only [phaseBLoop, hc, hcall, hsl]
          simp
        | ok cache' =>
          simp only [phaseBLoop, hc, hcall, hsl]
          split
          · simp
          · calc tr.length ≤ (tr ++ [(p, claims)]).length := by simp
              _ ≤ _ := ih cache' (tr ++ [(p, claims)])

theorem cacheGet_update_cases {c : Cache} {n ns : String} {f : ClaimInfo → ClaimInfo}
    (hf : KeyPres f) (n' ns' : String) :
    cacheGet (cacheUpdate c n ns f) n' ns' =
      if n' = n ∧ ns' = ns then (cacheGet c n' ns').map f else cacheGet c n' ns' := by
  by_cases h : n' = n ∧ ns' = ns
  · rcases h with ⟨rfl, rfl⟩
    rw [if_pos ⟨rfl, rfl⟩]
    exact cacheGet_update_self hf
  · rw [if_neg h]
    exact cacheGet_update_ne hf h

theorem cacheGet_add_cases {c : Cache} {ci : ClaimInfo} (n ns : String) :
    cacheGet (cacheAdd c ci) n ns =
      if n = ci.claimName ∧ ns = ci.namespc then some ci else cacheGet c n ns := by
  by_cases h : n = ci.claimName ∧ ns = ci.namespc
  · rcases h with ⟨rfl, rfl⟩
    rw [if_pos ⟨rfl, rfl⟩]
    exact cacheGet_add_self
  · rw [if_neg h]
    exact cacheGet_add_ne h

theorem cacheGet_delete_cases {c : Cache} {n ns : String} (n' ns' : String) :
    cacheGet (cacheDelete c n ns) n' ns' =
      if n' = n ∧ ns' = ns then none else cacheGet c n' ns' := by
  by_cases h : n' = n ∧ ns' = ns
  · rcases h with ⟨rfl, rfl⟩
    rw [if_pos ⟨rfl, rfl⟩]
    exact cacheGet_delete_self
  · rw [if_neg h]
    exact cacheGet_delete_ne h

theorem prepEvolve_refl (c : Cache) : PrepEvolve c c :=
  fun _ _ ci h => ⟨ci, h, fun hp => hp⟩

theorem prepEvolve_trans {c₁ c₂ c₃ : Cache} (h12 : PrepEvolve c₁ c₂) (h23 : PrepEvolve c₂ c₃) :
    PrepEvolve c₁ c₃ := by
  intro n ns ci h
  rcases h12 n ns ci h with ⟨ci', h', hp'⟩
  rcases h23 n ns ci' h' with ⟨ci'', h'', hp''⟩
  exact ⟨ci'', h'', fun hp => hp'' (hp' hp)⟩

theorem noNewPrepared_refl (c : Cache) : NoNewPrepared c c :=
  fun _ _ ci' h hp => ⟨ci', h, hp⟩

theorem noNewPrepared_trans {c₁ c₂ c₃ : Cache} (h12 : NoNewPrepared c₁ c₂)
    (h23 : NoNewPrepared c₂ c₃) : NoNewPrepared c₁ c₃ := by
  intro n ns ci' h hp
  rcases h23 n ns ci' h hp with ⟨ci'', h'', hp''⟩
  exact h12 n ns ci'' h'' hp''

theorem unprepEvolve_refl (c : Cache) : UnprepEvolve c c :=
  fun _ _ ci' h => ⟨ci', h, rfl⟩

theorem unprepEvolve_trans {c₁ c₂ c₃ : Cache} (h12 : UnprepEvolve c₁ c₂)
    (h23 : UnprepEvolve c₂ c₃) : UnprepEvolve c₁ c₃ := by
  intro n ns ci' h
  rcases h23 n ns ci' h with ⟨cim, hm, hpm⟩
  rcases h12 n ns cim hm with ⟨ci0, h0, hp0⟩
  exact ⟨ci0, h0, hpm.trans hp0⟩

theorem keepsOtherRefs_refl (u : String) (c : Cache) : KeepsOtherRefs u c c :=
  fun _ _ _ _ ci h hv => ⟨ci, h, hv⟩

theorem keepsOtherRefs_trans {u : String} {c₁ c₂ c₃ : Cache} (h12 : KeepsOtherRefs u c₁ c₂)
    (h23 : KeepsOtherRefs u c₂ c₃) : KeepsOtherRefs u c₁ c₃ := by
  intro n ns v hvu ci h hv
  rcases h12 n ns v hvu ci h hv with ⟨ci', h', hv'⟩
  exact h23 n ns v hvu ci' h' hv'

theorem prepEvolve_update {c : Cache} {n ns : String} {f : ClaimInfo → ClaimInfo}
    (hf : KeyPres f) (hprep : ∀ ci, ci.prepared = true → (f ci).prepared = true) :
    PrepEvolve c (cacheUpdate c n ns f) := by
  intro n' ns' ci h
  rw [cacheGet_update_cases hf n' ns']
  by_cases hk : n' = n ∧ ns' = ns
  · rw [if_pos hk, h]
    exact ⟨f ci, rfl, hprep ci⟩
  · rw [if_neg hk]
    exact ⟨ci, h, fun hp => hp⟩

theorem noNewPrepared_update {c : Cache} {n ns : String} {f : ClaimInfo → ClaimInfo}
    (hf : KeyPres f) (hprep : ∀ ci, (f ci).prepared = true → ci.prepared = true) :
    NoNewPrepared c (cacheUpdate c n ns f) := by
  intro n' ns' ci' h hp
  rw [cacheGet_update_cases hf n' ns'] at h
  by_cases hk : n' = n ∧ ns' = ns
  · rw [if_pos hk] at h
    cases hg : cacheGet c n' ns' with
    | none => rw [hg] at h; cases h
    | some ci =>
      rw [hg] at h
      injection h with h
      subst h
      exact ⟨ci, rfl, hprep ci hp⟩
  · rw [if_neg hk] at h
    exact ⟨ci', h, hp⟩

theorem unprepEvolve_update {c : Cache} {n ns : String} {f : ClaimInfo → ClaimInfo}
    (hf : KeyPres f) (hprep : ∀ ci, (f ci).prepared = ci.prepared) :
    UnprepEvolve c (cacheUpdate c n ns f) := by
  intro n' ns' ci' h
  rw [cacheGet_update_cases hf n' ns'] at h
  by_cases hk : n' = n ∧ ns' = ns
  · rw [if_pos hk] at h
    cases hg : cacheGet c n' ns' with
    | none => rw [hg] at h; cases h
    | some ci =>
      rw [hg] at h
      injection h with h
      subst h
      exact ⟨ci, rfl, hprep ci⟩
  · rw [if_neg hk] at h
    exact ⟨ci', h, rfl⟩

theorem unprepEvolve_delete {c : Cache} {n ns : String} :
    UnprepEvolve c (cacheDelete c n ns) := by
  intro n' ns' ci' h
  rw [cacheGet_delete_cases n' ns'] at h
  by_cases hk : n' = n ∧ ns' = ns
  · rw [if_pos hk] at h; cases h
  · rw [if_neg hk] at h
    exact ⟨ci', h, rfl⟩

theorem keepsOtherRefs_update {u : String} {c : Cache} {n ns : String}
    {f : ClaimInfo → ClaimInfo} (hf : KeyPres f)
    (hrefs : ∀ ci v, v ≠ u → v ∈ ci.podUIDs → v ∈ (f ci).podUIDs) :
    KeepsOtherRefs u c (cacheUpdate c n ns f) := by
  intro n' ns' v hvu ci h hv
  rw [cacheGet_update_cases hf n' ns']
  by_cases hk : n' = n ∧ ns' = ns
  · rw [if_pos hk, h]
    exact ⟨f ci, rfl, hrefs ci v hvu hv⟩
  · rw [if_neg hk]
    exact ⟨ci, h, hv⟩

theorem prepEvolve_add {c : Cache} {ci0 : ClaimInfo}
    (hnone : cacheGet c ci0.claimName ci0.namespc = none) :
    PrepEvolve c (cacheAdd c ci0) := by
  intro n ns ci h
  rw [cacheGet_add_cases n ns]
  by_cases hk : n = ci0.claimName ∧ ns = ci0.namespc
  · rcases hk with ⟨rfl, rfl⟩
    rw [hnone] at h
    cases h
  · rw [if_neg hk]
    exact ⟨ci, h, fun hp => hp⟩

theorem noNewPrepared_add {c : Cache} {ci0 : ClaimInfo} (hprep : ci0.prepared = false) :
    NoNewPrepared c (cacheAdd c ci0) := by
  intro n ns ci' h hp
  rw [cacheGet_add_cases n ns] at h
  by_cases hk : n = ci0.claimName ∧ ns = ci0.namespc
  · rw [if_pos hk] at h
    injection h with h
    subst h
    rw [hprep] at hp
    cases hp
  · rw [if_neg hk] at h
    exact ⟨ci', h, hp⟩

theorem keepsOtherRefs_add {u : String} {c : Cache} {ci0 : ClaimInfo}
    (hnone : cacheGet c ci0.claimName ci0.namespc = none) :
    KeepsOtherRefs u c (cacheAdd c ci0) := by
  intro n ns v _hvu ci h hv
  rw [cacheGet_add_cases n ns]
  by_cases hk : n = ci0.claimName ∧ ns = ci0.namespc
  · rcases hk with ⟨rfl, rfl⟩
    rw [hnone] at h
    cases h
  · rw [if_neg hk]
    exact ⟨ci, h, hv⟩

theorem compStep_get_cases (pod : Pod) (rc : ResourceClaim) (c : Cache) (n ns : String) :
    cacheGet (compStep pod rc c) n ns = cacheGet c n ns ∨
    cacheGet (compStep pod rc c) n ns =
      (cacheGet c n ns).map (fun ci => deletePodReference ci pod.uid) := by
  unfold compStep
  cases hg : cacheGet c rc.name rc.namespc with
  | none => exact Or.inl rfl
  | some ci =>
    rw [cacheGet_update_cases (keyPres_deletePodReference pod.uid) n ns]
    by_cases hk : n = rc.name ∧ ns = rc.namespc
    · rw [if_pos hk]
      exact Or.inr rfl
    · rw [if_neg hk]
      exact Or.inl rfl

theorem compStep_not_mem_self (pod : Pod) (rc : ResourceClaim) (c : Cache) :
    ∀ ci', cacheGet (compStep pod rc c) rc.name rc.namespc = some ci' →
      pod.uid ∉ ci'.podUIDs := by
  intro ci' h
  unfold compStep at h
  cases hg : cacheGet c rc.name rc.namespc with
  | none => rw [hg] at h; rw [hg] at h; cases h
  | some ci =>
    rw [hg] at h
    rw [cacheGet_update_self (keyPres_deletePodReference pod.uid), hg] at h
    injection h with h
    subst h
    intro hmem
    exact (mem_deletePodReference.mp hmem).2 rfl

theorem compStep_origin (pod : Pod) (rc : ResourceClaim) (c : Cache) :
    ∀ n ns ci', cacheGet (compStep pod rc c) n ns = some ci' →
      ∃ ci, cacheGet c n ns = some ci ∧ ci'.prepared = ci.prepared ∧
        (∀ v, v ∈ ci'.podUIDs → v ∈ ci.podUIDs) := by
  intro n ns ci' h
  rcases compStep_get_cases pod rc c n ns with hc | hc
  · rw [hc] at h
    exact ⟨ci', h, rfl, fun v hv => hv⟩
  · rw [hc] at h
    cases hg : cacheGet c n ns with
    | none => rw [hg] at h; cases h
    | some ci =>
      rw [hg] at h
      injection h with h
      subst h
      exact ⟨ci, rfl, rfl, fun v hv => (mem_deletePodReference.mp hv).1⟩

theorem compStep_forward (pod : Pod) (rc : ResourceClaim) (c : Cache) :
    ∀ n ns ci, cacheGet c n ns = some ci →
      ∃ ci', cacheGet (compStep pod rc c) n ns = some ci' ∧ ci'.prepared = ci.prepared ∧
        (∀ v, v ≠ pod.uid → v ∈ ci.podUIDs → v ∈ ci'.podUIDs) := by
  intro n ns ci h
  rcases compStep_get_cases pod rc c n ns with hc | hc
  · rw [hc, h]
    exact ⟨ci, rfl, rfl, fun v _ hv => hv⟩
  · rw [hc, h]
    refine ⟨deletePodReference ci pod.uid, rfl, rfl, fun v hvu hv => ?_⟩
    exact mem_deletePodReference.mpr ⟨hv, hvu⟩

theorem compensate_origin (pod : Pod) (processed : List ResourceClaim) (c : Cache) :
    ∀ n ns ci', cacheGet (compensate pod processed c) n ns = some ci' →
      ∃ ci, cacheGet c n ns = some ci ∧ ci'.prepared = ci.prepared ∧
        (∀ v, v ∈ ci'.podUIDs → v ∈ ci.podUIDs) := by
  induction processed with
  | nil => intro n ns ci' h; exact ⟨ci', h, rfl, fun v hv => hv⟩
  | cons rc rest ih =>
    intro n ns ci' h
    have hstep := compStep_origin pod rc (compensate pod rest c) n ns ci' h
    rcases hstep with ⟨cim, hm, hpm, hrm⟩
    rcases ih n ns cim hm with ⟨ci, h0, hp0, hr0⟩
    exact ⟨ci, h0, hpm.trans hp0, fun v hv => hr0 v (hrm v hv)⟩

theorem compensate_forward (pod : Pod) (processed : List ResourceClaim) (c : Cache) :
    ∀ n ns ci, cacheGet c n ns = some ci →
      ∃ ci', cacheGet (compensate pod processed c) n ns = some ci' ∧
        ci'.prepared = ci.prepared ∧
        (∀ v, v ≠ pod.uid → v ∈ ci.podUIDs → v ∈ ci'.podUIDs) := by
  induction processed with
  | nil => intro n ns ci h; exact ⟨ci, h, rfl, fun v _ hv => hv⟩
  | cons rc rest ih =>
    intro n ns ci h
    rcases ih n ns ci h with ⟨cim, hm, hpm, hrm⟩
    rcases compStep_forward pod rc (compensate pod rest c) n ns cim hm with ⟨ci', h', hp', hr'⟩
    exact ⟨ci', h', hp'.trans hpm, fun v hvu hv => hr' v hvu (hrm v hvu hv)⟩

theorem compensate_not_mem (pod : Pod) (processed : List ResourceClaim) (c : Cache) :
    ∀ rc, rc ∈ processed → ∀ ci',
      cacheGet (compensate pod processed c) rc.name rc.namespc = some ci' →
      pod.uid ∉ ci'.podUIDs := by
  induction processed with
  | nil => intro rc hmem; cases hmem
  | cons rc0 rest ih =>
    intro rc hmem ci' h
    rcases List.mem_cons.mp hmem with rfl | hmem'
    · exact compStep_not_mem_self pod rc (compensate pod rest c) ci' h
    · rcases compStep_origin pod rc0 (compensate pod rest c) rc.name rc.namespc ci' h with
        ⟨cim, hm, _, hrm⟩
      intro hv
      exact ih rc hmem' cim hm (hrm pod.uid hv)

theorem prepareClaimTxn_cache (pod : Pod) (rc : ResourceClaim) (st : PrepState) :
    (prepareClaimTxn pod rc st).cache = prepareTxnCache pod rc st.cache := by
  simp only [prepareClaimTxn]
  split
  · rfl
  · split <;> rfl

theorem prepareClaimTxn_processed (pod : Pod) (rc : ResourceClaim) (st : PrepState) :
    (prepareClaimTxn pod rc st).processed = st.processed := by
  simp only [prepareClaimTxn]
  split
  · rfl
  · split <;> rfl

theorem prepareTxnCache_prepEvolve (pod : Pod) (rc : ResourceClaim) (c : Cache) :
    PrepEvolve c (prepareTxnCache pod rc c) := by
  unfold prepareTxnCache
  by_cases hs : (cacheGet c rc.name rc.namespc).isSome
  · rw [if_pos hs]
    exact prepEvolve_update (keyPres_addPodReference pod.uid)
      (fun ci => ((addPodReference_fields ci pod.uid).2.2.1).symm ▸ id)
  · rw [if_neg hs]
    have hnone : cacheGet c rc.name rc.namespc = none := by
      cases hg : cacheGet c rc.name rc.namespc with
      | none => rfl
      | some ci => rw [hg] at hs; simp at hs
    refine prepEvolve_trans (@prepEvolve_add _ (newClaimInfoFromClaim rc) hnone) ?_
    exact prepEvolve_update (keyPres_addPodReference pod.uid)
      (fun ci => ((addPodReference_fields ci pod.uid).2.2.1).symm ▸ id)

theorem prepareTxnCache_noNewPrepared (pod : Pod) (rc : ResourceClaim) (c : Cache) :
    NoNewPrepared c (prepareTxnCache pod rc c) := by
  unfold prepareTxnCache
  have hupd : ∀ c' : Cache, NoNewPrepared c' (cacheUpdate c' rc.name rc.namespc
      (fun ci => addPodReference ci pod.uid)) := fun c' =>
    noNewPrepared_update (keyPres_addPodReference pod.uid)
      (fun ci => ((addPodReference_fields ci pod.uid).2.2.1) ▸ id)
  by_cases hs : (cacheGet c rc.name rc.namespc).isSome
  · rw [if_pos hs]
    exact hupd c
  · rw [if_neg hs]
    exact noNewPrepared_trans (@noNewPrepared_add _ (newClaimInfoFromClaim rc) rfl)
      (hupd _)

theorem prepareTxnCache_keepsOtherRefs (pod : Pod) (rc : ResourceClaim) (c : Cache) :
    KeepsOtherRefs pod.uid c (prepareTxnCache pod rc c) := by
  unfold prepareTxnCache
  have hupd : ∀ c' : Cache, KeepsOtherRefs pod.uid c' (cacheUpdate c' rc.name rc.namespc
      (fun ci => addPodReference ci pod.uid)) := fun c' =>
    keepsOtherRefs_update (keyPres_addPodReference pod.uid)
      (fun ci v _ hv => mem_addPodReference.mpr (Or.inl hv))
  by_cases hs : (cacheGet c rc.name rc.namespc).isSome
  · rw [if_pos hs]
    exact hupd c
  · rw [if_neg hs]
    have hnone : cacheGet c rc.name rc.namespc = none := by
      cases hg : cacheGet c rc.name rc.namespc with
      | none => rfl
      | some ci => rw [hg] at hs; simp at hs
    exact keepsOtherRefs_trans (@keepsOtherRefs_add _ _ (newClaimInfoFromClaim rc) hnone)
      (hupd _)

theorem prepareTxnCache_refs (pod : Pod) (rc : ResourceClaim) (c : Cache) :
    ∀ n ns ci', cacheGet (prepareTxnCache pod rc c) n ns = some ci' →
      ∀ v, v ∈ ci'.podUIDs →
        (∃ ci, cacheGet c n ns = some ci ∧ v ∈ ci.podUIDs) ∨ (n = rc.name ∧ ns = rc.namespc) := by
  intro n ns ci' h v hv
  by_cases hk : n = rc.name ∧ ns = rc.namespc
  · exact Or.inr hk
  · left
    unfold prepareTxnCache at h
    rw [cacheGet_update_cases (keyPres_addPodReference pod.uid) n ns, if_neg hk] at h
    by_cases hs : (cacheGet c rc.name rc.namespc).isSome
    · rw [if_pos hs] at h
      exact ⟨ci', h, hv⟩
    · rw [if_neg hs] at h
      rw [cacheGet_add_cases n ns] at h
      have hk' : ¬(n = (newClaimInfoFromClaim rc).claimName ∧
          ns = (newClaimInfoFromClaim rc).namespc) := hk
      rw [if_neg hk'] at h
      exact ⟨ci', h, hv⟩

theorem unprepareClaimTxn_cache_cases (pod : Pod) (claimName : String) (st : UnprepState) :
    (unprepareClaimTxn pod claimName st).cache = st.cache ∨
    (unprepareClaimTxn pod claimName st).cache =
      cacheUpdate st.cache claimName pod.namespc (fun ci => deletePodReference ci pod.uid) := by
  unfold unprepareClaimTxn
  split
  · exact Or.inl rfl
  · split
    · exact Or.inr rfl
    · exact Or.inl rfl

theorem preparePodClaimStep_ok_cases {env : Env} {pod : Pod} {a : PodResourceClaim}
    {st st' : PrepState} (h : preparePodClaimStep env pod a st = .ok st') :
    st' = st ∨
    ∃ claimName mco rc, env.resolveName pod a = .ok (some claimName, mco) ∧
      env.fetchClaim pod.namespc claimName = .ok rc ∧
      isReservedForPod pod rc = true ∧ claimIsUsedByPod a pod = true ∧
      st' = prepareClaimTxn pod rc { st with processed := st.processed ++ [rc] } := by
  unfold preparePodClaimStep at h
  cases hres : env.resolveName pod a with
  | error e => simp only [hres] at h; cases h
  | ok pair =>
    obtain ⟨cn?, mco⟩ := pair
    cases cn? with
    | none =>
      simp only [hres] at h
      injection h with h
      exact Or.inl h.symm
    | some cn =>
      simp only [hres] at h
      cases hf : env.fetchClaim pod.namespc cn with
      | error e => simp only [hf] at h; cases h
      | ok rc =>
        simp only [hf] at h
        cases hown : (if mco = true then env.isForPod pod rc else Except.ok ()) with
        | error e => simp only [hown] at h; cases h
        | ok u =>
          simp only [hown] at h
          cases hr : isReservedForPod pod rc with
          | false => simp [hr] at h
          | true =>
            cases hu : claimIsUsedByPod a pod with
            | false =>
              simp only [hr, hu, Bool.not_true, Bool.not_false, Bool.false_eq_true,
                if_false, if_true] at h
              injection h with h
              exact Or.inl h.symm
            | true =>
              simp only [hr, hu, Bool.not_true, Bool.false_eq_true, if_false] at h
              injection h with h
              exact Or.inr ⟨cn, mco, rc, rfl, hf, hr, rfl, h.symm⟩

theorem unpreparePodClaimStep_ok_cases {env : Env} {pod : Pod} {a : PodResourceClaim}
    {st st' : UnprepState} (h : unpreparePodClaimStep env pod a st = .ok st') :
    st' = st ∨
    ∃ claimName mco, env.resolveName pod a = .ok (some claimName, mco) ∧
      st' = unprepareClaimTxn pod claimName st := by
  unfold unpreparePodClaimStep at h
  cases hres : env.resolveName pod a with
  | error e => simp only [hres] at h; cases h
  | ok pair =>
    obtain ⟨cn?, mco⟩ := pair
    cases cn? with
    | none =>
      simp only [hres] at h
      injection h with h
      exact Or.inl h.symm
    | some cn =>
      simp only [hres] at h
      injection h with h
      exact Or.inr ⟨cn, mco, rfl, h.symm⟩

theorem processPrepareResponseEntry_ok_shape {p : String} {claims : List DraClaim}
    {rcs : List (String × ResourceClaim)} {e : String × ClaimResult} {c c' : Cache}
    (h : processPrepareResponseEntry p claims rcs e c = .ok c') :
    ∃ n ns, c' = cacheUpdate c n ns (fun ci => setCDIDevices ci p e.2.cdiDevices) := by
  unfold processPrepareResponseEntry at h
  cases hl : lookupClaimRequest claims e.1 with
  | none => simp only [hl] at h; cases h
  | some req =>
    simp only [hl] at h
    cases he : (e.2.error != "") with
    | true => simp only [he, if_true] at h; cases h
    | false =>
      simp only [he, Bool.false_eq_true, if_false] at h
      cases ha : assocLookup rcs e.1 with
      | none => simp only [ha] at h; cases h
      | some claim =>
        simp only [ha] at h
        cases hg : cacheGet c claim.name claim.namespc with
        | none => simp only [hg] at h; cases h
        | some ci =>
          simp only [hg] at h
          injection h with h
          exact ⟨claim.name, claim.namespc, h.symm⟩

theorem markPreparedStep_ok_shape {entry : String × ResourceClaim} {c c' : Cache}
    (h : markPreparedStep entry c = .ok c') :
    c' = cacheUpdate c entry.2.name entry.2.namespc setPrepared := by
  unfold markPreparedStep at h
  cases hg : cacheGet c entry.2.name entry.2.namespc with
  | none => simp only [hg] at h; cases h
  | some ci =>
    simp only [hg] at h
    injection h with h
    exact h.symm

theorem processUnprepareResponseEntry_ok_shape {claimNames : List (String × String)}
    {ns : String} {claims : List DraClaim} {e : String × ClaimResult} {c c' : Cache}
    (h : processUnprepareResponseEntry claimNames ns claims e c = .ok c') :
    c' = cacheDelete c ((assocLookup claimNames e.1).getD "") ns := by
  unfold processUnprepareResponseEntry at h
  cases hl : lookupClaimRequest claims e.1 with
  | none => simp only [hl] at h; cases h
  | some req =>
    simp only [hl] at h
    cases he : (e.2.error != "") with
    | true => simp only [he, if_true] at h; cases h
    | false =>
      simp only [he, Bool.false_eq_true, if_false] at h
      injection h with h
      exact h.symm

theorem compensate_prepEvolve (pod : Pod) (processed : List ResourceClaim) (c : Cache) :
    PrepEvolve c (compensate pod processed c) := by
  intro n ns ci h
  rcases compensate_forward pod processed c n ns ci h with ⟨ci', h', hp', _⟩
  exact ⟨ci', h', fun hp => hp'.trans hp⟩

theorem prepareStep_prepEvolve {env : Env} {pod : Pod} {a : PodResourceClaim}
    {st st' : PrepState} (h : preparePodClaimStep env pod a st = .ok st') :
    PrepEvolve st.cache st'.cache := by
  rcases preparePodClaimStep_ok_cases h with rfl | ⟨cn, mco, rc, _, _, _, _, rfl⟩
  · exact prepEvolve_refl _
  · rw [prepareClaimTxn_cache]
    exact prepareTxnCache_prepEvolve pod rc st.cache

theorem prepEntry_prepEvolve {p : String} {claims : List DraClaim}
    {rcs : List (String × ResourceClaim)} {e : String × ClaimResult} {c c' : Cache}
    (h : processPrepareResponseEntry p claims rcs e c = .ok c') : PrepEvolve c c' := by
  rcases processPrepareResponseEntry_ok_shape h with ⟨n, ns, rfl⟩
  exact prepEvolve_update (keyPres_setCDIDevices p e.2.cdiDevices) (fun ci hp => hp)

theorem markStep_prepEvolve {entry : String × ResourceClaim} {c c' : Cache}
    (h : markPreparedStep entry c = .ok c') : PrepEvolve c c' := by
  rw [markPreparedStep_ok_shape h]
  exact prepEvolve_update keyPres_setPrepared (fun ci _ => rfl)

theorem prepare_prepEvolve (env : Env) (pod : Pod) (cache : Cache) :
    PrepEvolve cache (prepareResources env pod cache).cache := by
  have hstepA : ∀ (a : PodResourceClaim) (st st' : PrepState),
      preparePodClaimStep env pod a st = .ok st' →
      PrepEvolve cache st.cache → PrepEvolve cache st'.cache :=
    fun a st st' h hp => prepEvolve_trans hp (prepareStep_prepEvolve h)
  simp only [prepareResources]
  cases hA : stepLoop (preparePodClaimStep env pod) pod.resourceClaims
      { cache := cache, batches := [], resourceClaims := [], processed := [] } with
  | error p =>
    obtain ⟨e, st⟩ := p
    dsimp only
    have h1 : PrepEvolve cache st.cache :=
      stepLoop_error_inv hstepA pod.resourceClaims _ e st hA (prepEvolve_refl cache)
    exact prepEvolve_trans h1 (compensate_prepEvolve pod st.processed st.cache)
  | ok st =>
    dsimp only
    have h1 : PrepEvolve cache st.cache :=
      stepLoop_ok_inv hstepA pod.resourceClaims _ st hA (prepEvolve_refl cache)
    have h2 : PrepEvolve cache (preparePhaseB env st.resourceClaims st.batches st.cache []).cache := by
      unfold preparePhaseB
      exact phaseBLoop_cache_inv
        (fun p claims e c c' h hp => prepEvolve_trans hp (prepEntry_prepEvolve h))
        st.batches st.cache [] h1
    cases hB : preparePhaseB env st.resourceClaims st.batches st.cache [] with
    | mk err cacheB trB =>
      rw [hB] at h2
      dsimp only at h2
      cases err with
      | some e =>
        dsimp only
        exact prepEvolve_trans h2 (compensate_prepEvolve pod st.processed cacheB)
      | none =>
        dsimp only
        have hstepC : ∀ (a : String × ResourceClaim) (c c' : Cache),
            markPreparedStep a c = .ok c' → PrepEvolve cache c → PrepEvolve cache c' :=
          fun a c c' h hp => prepEvolve_trans hp (markStep_prepEvolve h)
        unfold preparePhaseC
        cases hC : stepLoop markPreparedStep st.resourceClaims cacheB with
        | error p =>
          obtain ⟨e, cacheC⟩ := p
          dsimp only
          have h3 : PrepEvolve cache cacheC :=
            stepLoop_error_inv hstepC st.resourceClaims cacheB e cacheC hC h2
          exact prepEvolve_trans h3 (compensate_prepEvolve pod st.processed cacheC)
        | ok cacheC =>
          have h3 : PrepEvolve cache cacheC :=
            stepLoop_ok_inv hstepC st.resourceClaims cacheB cacheC hC h2
          cases hck : env.checkpointOk with
          | true => simpa using h3
          | false =>
            simp only [Bool.false_eq_true, if_false]
            exact prepEvolve_trans h3 (compensate_prepEvolve pod st.processed cacheC)

theorem unprepStep_unprepEvolve {env : Env} {pod : Pod} {a : PodResourceClaim}
    {st st' : UnprepState} (h : unpreparePodClaimStep env pod a st = .ok st') :
    UnprepEvolve st.cache st'.cache := by
  rcases unpreparePodClaimStep_ok_cases h with rfl | ⟨cn, mco, _, rfl⟩
  · exact unprepEvolve_refl _
  · rcases unprepareClaimTxn_cache_cases pod cn st with hc | hc <;> rw [hc]
    · exact unprepEvolve_refl _
    · exact unprepEvolve_update (keyPres_deletePodReference pod.uid) (fun ci => rfl)

theorem unprepEntry_unprepEvolve {claimNames : List (String × String)} {ns : String}
    {claims : List DraClaim} {e : String × ClaimResult} {c c' : Cache}
    (h : processUnprepareResponseEntry claimNames ns claims e c = .ok c') :
    UnprepEvolve c c' := by
  rw [processUnprepareResponseEntry_ok_shape h]
  exact unprepEvolve_delete

theorem unprep_unprepEvolve (env : Env) (pod : Pod) (cache : Cache) :
    UnprepEvolve cache (unprepareResources env pod cache).cache := by
  have hstepA : ∀ (a : PodResourceClaim) (st st' : UnprepState),
      unpreparePodClaimStep env pod a st = .ok st' →
      UnprepEvolve cache st.cache → UnprepEvolve cache st'.cache :=
    fun a st st' h hp => unprepEvolve_trans hp (unprepStep_unprepEvolve h)
  simp only [unprepareResources]
  cases hA : stepLoop (unpreparePodClaimStep env pod) pod.resourceClaims
      { cache := cache, batches := [], claimNames := [] } with
  | error p =>
    obtain ⟨e, st⟩ := p
    dsimp only
    exact stepLoop_error_inv hstepA pod.resourceClaims _ e st hA (unprepEvolve_refl cache)
  | ok st =>
    dsimp only
    have h1 : UnprepEvolve cache st.cache :=
      stepLoop_ok_inv hstepA pod.resourceClaims _ st hA (unprepEvolve_refl cache)
    have h2 : UnprepEvolve cache
        (unprepPhaseB env st.claimNames pod.namespc st.batches st.cache []).cache := by
      unfold unprepPhaseB
      exact phaseBLoop_cache_inv
        (fun p claims e c c' h hp => unprepEvolve_trans hp (unprepEntry_unprepEvolve h))
        st.batches st.cache [] h1
    cases hB : unprepPhaseB env st.claimNames pod.namespc st.batches st.cache [] with
    | mk err cacheB trB =>
      rw [hB] at h2
      dsimp only at h2
      cases err with
      | some e => exact h2
      | none =>
        dsimp only
        cases env.checkpointOk <;> simpa using h2

theorem phaseBLoop_trace_ne_nil {connect : String → Except String Unit}
    {call : String → List DraClaim → Except String (List (String × ClaimResult))}
    {entryStep : String → List DraClaim → (String × ClaimResult) → Cache → Except String Cache}
    {cE lE oE : String} {b : String × List DraClaim} {rest : List (String × List DraClaim)}
    {cache : Cache}
    (hok : (phaseBLoop connect call entryStep cE lE oE (b :: rest) cache []).err = none) :
    (phaseBLoop connect call entryStep cE lE oE (b :: rest) cache []).trace ≠ [] := by
  obtain ⟨p, claims⟩ := b
  cases hc : connect p with
  | error e => simp only [phaseBLoop, hc] at hok; cases hok
  | ok u =>
    cases hcall : call p claims with
    | error e => simp only [phaseBLoop, hc, hcall] at hok; cases hok
    | ok response =>
      cases hsl : stepLoop (entryStep p claims) response cache with
      | error pr =>
        obtain ⟨e, cacheE⟩ := pr
        simp only [phaseBLoop, hc, hcall, hsl] at hok
        cases hok
      | ok cache' =>
        simp only [phaseBLoop, hc, hcall, hsl] at hok ⊢
        by_cases hlen : (Int.ofNat claims.length) - (Int.ofNat response.length) != 0
        · rw [if_pos hlen] at hok; cases hok
        · rw [if_neg hlen] at hok ⊢
          intro hnil
          have := @phaseBLoop_trace_mono connect call entryStep cE lE oE rest cache'
            ([] ++ [(p, claims)])
          rw [hnil] at this
          simp at this



theorem compensate_noNewPrepared (pod : Pod) (processed : List ResourceClaim) (c : Cache) :
    NoNewPrepared c (compensate pod processed c) := by
  intro n ns ci' h hp
  rcases compensate_origin pod processed c n ns ci' h with ⟨ci, h0, hp0, _⟩
  exact ⟨ci, h0, hp0 ▸ hp⟩

theorem compensate_keepsOtherRefs (pod : Pod) (processed : List ResourceClaim) (c : Cache) :
    KeepsOtherRefs pod.uid c (compensate pod processed c) := by
  intro n ns v hvu ci h hv
  rcases compensate_forward pod processed c n ns ci h with ⟨ci', h', _, hr'⟩
  exact ⟨ci', h', hr' v hvu hv⟩

theorem prepareStep_noNewPrepared {env : Env} {pod : Pod} {a : PodResourceClaim}
    {st st' : PrepState} (h : preparePodClaimStep env pod a st = .ok st') :
    NoNewPrepared st.cache st'.cache := by
  rcases preparePodClaimStep_ok_cases h with rfl | ⟨cn, mco, rc, _, _, _, _, rfl⟩
  · exact noNewPrepared_refl _
  · rw [prepareClaimTxn_cache]
    exact prepareTxnCache_noNewPrepared pod rc st.cache

theorem prepEntry_noNewPrepared {p : String} {claims : List DraClaim}
    {rcs : List (String × ResourceClaim)} {e : String × ClaimResult} {c c' : Cache}
    (h : processPrepareResponseEntry p claims rcs e c = .ok c') : NoNewPrepared c c' := by
  rcases processPrepareResponseEntry_ok_shape h with ⟨n, ns, rfl⟩
  exact noNewPrepared_update (keyPres_setCDIDevices p e.2.cdiDevices) (fun ci hp => hp)

theorem prepareStep_keepsOtherRefs {env : Env} {pod : Pod} {a : PodResourceClaim}
    {st st' : PrepState} (h : preparePodClaimStep env pod a st = .ok st') :
    KeepsOtherRefs pod.uid st.cache st'.cache := by
  rcases preparePodClaimStep_ok_cases h with rfl | ⟨cn, mco, rc, _, _, _, _, rfl⟩
  · exact keepsOtherRefs_refl _ _
  · rw [prepareClaimTxn_cache]
    exact prepareTxnCache_keepsOtherRefs pod rc st.cache

theorem prepEntry_keepsOtherRefs {u : String} {p : String} {claims : List DraClaim}
    {rcs : List (String × ResourceClaim)} {e : String × ClaimResult} {c c' : Cache}
    (h : processPrepareResponseEntry p claims rcs e c = .ok c') : KeepsOtherRefs u c c' := by
  rcases processPrepareResponseEntry_ok_shape h with ⟨n, ns, rfl⟩
  exact keepsOtherRefs_update (keyPres_setCDIDevices p e.2.cdiDevices) (fun ci v _ hv => hv)

theorem markStep_keepsOtherRefs {u : String} {entry : String × ResourceClaim} {c c' : Cache}
    (h : markPreparedStep entry c = .ok c') : KeepsOtherRefs u c c' := by
  rw [markPreparedStep_ok_shape h]
  exact keepsOtherRefs_update keyPres_setPrepared (fun ci v _ hv => hv)

theorem stepLoop_deletes {f : (String × ClaimResult) → Cache → Except String Cache}
    {keyOf : (String × ClaimResult) → String} {ns : String}
    (hdel : ∀ e c c', f e c = .ok c' → cacheGet c' (keyOf e) ns = none)
    (habs : ∀ e c c' k, f e c = .ok c' → cacheGet c k ns = none → cacheGet c' k ns = none) :
    ∀ (entries : List (String × ClaimResult)) (cache cache' : Cache),
      stepLoop f entries cache = .ok cache' →
      ∀ e, e ∈ entries → cacheGet cache' (keyOf e) ns = none := by
  intro entries
  induction entries with
  | nil => intro cache cache' h e hm; cases hm
  | cons e0 rest ih =>
    intro cache cache' h e hm
    simp only [stepLoop] at h
    cases hstep : f e0 cache with
    | error er => rw [hstep] at h; cases h
    | ok c1 =>
      rw [hstep] at h
      rcases List.mem_cons.mp hm with rfl | hm'
      · exact stepLoop_ok_inv (fun a st st' hs hp => habs a st st' (keyOf e) hs hp)
          rest c1 cache' h (hdel e cache c1 hstep)
      · exact ih c1 cache' h e hm'

theorem phaseBLoop_deletes {connect : String → Except String Unit}
    {call : String → List DraClaim → Except String (List (String × ClaimResult))}
    {entryStep : String → List DraClaim → (String × ClaimResult) → Cache → Except String Cache}
    {cE lE oE : String} {keyOf : (String × ClaimResult) → String} {ns : String}
    (hdel : ∀ p claims e c c', entryStep p claims e c = .ok c' →
      cacheGet c' (keyOf e) ns = none)
    (habs : ∀ p claims e c c' k, entryStep p claims e c = .ok c' →
      cacheGet c k ns = none → cacheGet c' k ns = none) :
    ∀ (batches : List (String × List DraClaim)) (cache : Cache)
      (tr : List (String × List DraClaim)),
      (phaseBLoop connect call entryStep cE lE oE batches cache tr).err = none →
      ∀ p claims, (p, claims) ∈ batches → ∀ resp, call p claims = .ok resp →
      ∀ e, e ∈ resp →
        cacheGet (phaseBLoop connect call entryStep cE lE oE batches cache tr).cache
          (keyOf e) ns = none := by
  intro batches
  induction batches with
  | nil => intro cache tr _ p claims hm; cases hm
  | cons b rest ih =>
    intro cache tr hok p claims hm resp hresp e he
    obtain ⟨p0, claims0⟩ := b
    cases hc : connect p0 with
    | error er => simp only [phaseBLoop, hc] at hok; cases hok
    | ok u =>
      cases hcall : call p0 claims0 with
      | error er => simp only [phaseBLoop, hc, hcall] at hok; cases hok
      | ok response =>
        cases hsl : stepLoop (entryStep p0 claims0) response cache with
        | error pr =>
          obtain ⟨er, cacheE⟩ := pr
          simp only [phaseBLoop, hc, hcall, hsl] at hok
          cases hok
        | ok cache1 =>
          simp only [phaseBLoop, hc, hcall, hsl] at hok ⊢
          by_cases hlen : (Int.ofNat claims0.length) - (Int.ofNat response.length) != 0
          · rw [if_pos hlen] at hok; cases hok
          · rw [if_neg hlen] at hok ⊢
            rcases List.mem_cons.mp hm with heq | hm'
            · cases heq
              rw [hresp] at hcall
              injection hcall with hcall
              subst hcall
              have h1 : cacheGet cache1 (keyOf e) ns = none :=
                stepLoop_deletes (hdel p claims) (fun e' c c' k hs hp => habs p claims e' c c' k hs hp)
                  resp cache cache1 hsl e he
              exact phaseBLoop_cache_inv
                (fun p' claims' e' c c' hs hp => habs p' claims' e' c c' (keyOf e) hs hp)
                rest cache1 (tr ++ [(p, claims)]) h1
            · exact ih cache1 (tr ++ [(p0, claims0)]) hok p claims hm' resp hresp e he

theorem unprepPhaseB_deletes (env : Env) (claimNames : List (String × String)) (ns : String) :
    ∀ (batches : List (String × List DraClaim)) (cache : Cache)
      (tr : List (String × List DraClaim)),
      (unprepPhaseB env claimNames ns batches cache tr).err = none →
      ∀ p claims, (p, claims) ∈ batches → ∀ resp, env.nodeUnprepare p claims = .ok resp →
      ∀ e, e ∈ resp →
        cacheGet (unprepPhaseB env claimNames ns batches cache tr).cache
          ((assocLookup claimNames e.1).getD "") ns = none := by
  intro batches cache tr hok p claims hm resp hresp e he
  unfold unprepPhaseB at hok ⊢
  refine @phaseBLoop_deletes _ _ _ _ _ _ (fun e => (assocLookup claimNames e.1).getD "")
    ns ?_ ?_ batches cache tr hok p claims hm resp hresp e he
  · intro p' claims' e' c c' h
    rw [processUnprepareResponseEntry_ok_shape h]
    exact cacheGet_delete_self
  · intro p' claims' e' c c' k h habs
    rw [processUnprepareResponseEntry_ok_shape h]
    rw [cacheGet_delete_cases k ns]
    by_cases hk : k = (assocLookup claimNames e'.1).getD "" ∧ ns = ns
    · rw [if_pos hk]
    · rw [if_neg hk]
      exact habs

theorem prepareTxnCache_get_other {pod : Pod} {rc : ResourceClaim} {c : Cache} {n ns : String}
    (hk : ¬(n = rc.name ∧ ns = rc.namespc)) :
    cacheGet (prepareTxnCache pod rc c) n ns = cacheGet c n ns := by
  unfold prepareTxnCache
  rw [cacheGet_update_cases (keyPres_addPodReference pod.uid) n ns, if_neg hk]
  by_cases hs : (cacheGet c rc.name rc.namespc).isSome
  · rw [if_pos hs]
  · rw [if_neg hs]
    rw [cacheGet_add_cases n ns]
    exact if_neg hk

theorem preparePluginName_eq (ci : ClaimInfo) (rh : ResourceHandle) :
    preparePluginName ci rh = ci.driverName := by
  simp only [preparePluginName]
  split <;> rfl

theorem assocAppend_singleton (k : String) (acc : List DraClaim) (v : DraClaim) :
    assocAppend [(k, acc)] k v = [(k, acc ++ [v])] := by
  simp [assocAppend]

theorem prepare_fold_batches_const (ci : ClaimInfo) :
    ∀ (rhs : List ResourceHandle) (acc : List DraClaim),
      List.foldl (fun bs rh => assocAppend bs ci.driverName (mkDraClaim ci rh))
        [(ci.driverName, acc)] rhs = [(ci.driverName, acc ++ rhs.map (mkDraClaim ci))] := by
  intro rhs
  induction rhs with
  | nil => intro acc; simp
  | cons rh rest ih =>
    intro acc
    simp only [List.foldl_cons, assocAppend_singleton, List.map_cons]
    rw [ih (acc ++ [mkDraClaim ci rh])]
    simp

theorem prepare_fold_batches_nil (ci : ClaimInfo) (rhs : List ResourceHandle) (h : rhs ≠ []) :
    List.foldl (fun bs rh => assocAppend bs (preparePluginName ci rh) (mkDraClaim ci rh))
      [] rhs = [(ci.driverName, rhs.map (mkDraClaim ci))] := by
  simp only [preparePluginName_eq]
  cases rhs with
  | nil => exact absurd rfl h
  | cons rh0 rest =>
    simp only [List.foldl_cons]
    have h0 : assocAppend [] ci.driverName (mkDraClaim ci rh0) =
        [(ci.driverName, [mkDraClaim ci rh0])] := rfl
    rw [h0, prepare_fold_batches_const ci rest [mkDraClaim ci rh0]]
    simp

theorem assocAppend_ne_nil (l : List (String × List DraClaim)) (k : String) (v : DraClaim) :
    assocAppend l k v ≠ [] := by
  cases l with
  | nil => simp [assocAppend]
  | cons kv rest =>
    obtain ⟨k', vs⟩ := kv
    simp only [assocAppend]
    split <;> simp

theorem foldl_assocAppend_ne_nil (g : ResourceHandle → String) (f : ResourceHandle → DraClaim) :
    ∀ (rhs : List ResourceHandle) (bs : List (String × List DraClaim)), bs ≠ [] →
      List.foldl (fun bs rh => assocAppend bs (g rh) (f rh)) bs rhs ≠ [] := by
  intro rhs
  induction rhs with
  | nil => intro bs h; exact h
  | cons rh rest ih =>
    intro bs _
    simp only [List.foldl_cons]
    exact ih (assocAppend bs (g rh) (f rh)) (assocAppend_ne_nil bs (g rh) (f rh))

theorem unprep_fold_batches_ne_nil (ci : ClaimInfo) (bs : List (String × List DraClaim))
    (h : ci.resourceHandles ≠ []) :
    List.foldl (fun bs rh => assocAppend bs (unpreparePluginName ci rh) (mkDraClaim ci rh))
      bs ci.resourceHandles ≠ [] := by
  cases hrh : ci.resourceHandles with
  | nil => exact absurd hrh h
  | cons rh0 rest =>
    simp only [List.foldl_cons]
    exact foldl_assocAppend_ne_nil _ _ rest _
      (assocAppend_ne_nil bs (unpreparePluginName ci rh0) (mkDraClaim ci rh0))

theorem c2aux_prepared_skip (env : Env) (pod : Pod) (cache : Cache) (pc : PodResourceClaim)
    (rc : ResourceClaim) (ci : ClaimInfo)
    (hpod : pod.resourceClaims = [pc])
    (hresolve : env.resolveName pod pc = .ok (some rc.name, false))
    (hfetch : env.fetchClaim pod.namespc rc.name = .ok rc)
    (hres : isReservedForPod pod rc = true)
    (hused : claimIsUsedByPod pc pod = true)
    (hget : cacheGet cache rc.name rc.namespc = some ci)
    (hprep : ci.prepared = true) :
    (prepareResources env pod cache).rpcs = [] := by
  have hstep : preparePodClaimStep env pod pc
      { cache := cache, batches := [], resourceClaims := [], processed := [] } =
      .ok (prepareClaimTxn pod rc
        { cache := cache, batches := [], resourceClaims := [], processed := [rc] }) := by
    simp [preparePodClaimStep, hresolve, hfetch, hres, hused]
  have hA : stepLoop (preparePodClaimStep env pod) pod.resourceClaims
      { cache := cache, batches := [], resourceClaims := [], processed := [] } =
      .ok (prepareClaimTxn pod rc
        { cache := cache, batches := [], resourceClaims := [], processed := [rc] }) := by
    rw [hpod]
    simp only [stepLoop, hstep]
  have hsome : (cacheGet cache rc.name rc.namespc).isSome = true := by rw [hget]; rfl
  have hg1 : cacheGet (prepareTxnCache pod rc cache) rc.name rc.namespc =
      some (addPodReference ci pod.uid) := by
    unfold prepareTxnCache
    rw [if_pos hsome, cacheGet_update_self (keyPres_addPodReference pod.uid), hget]
    rfl
  have htxn : prepareClaimTxn pod rc
      { cache := cache, batches := [], resourceClaims := [], processed := [rc] } =
      { cache := prepareTxnCache pod rc cache, batches := [], resourceClaims := [],
        processed := [rc] } := by
    simp only [prepareClaimTxn]
    rw [hg1]
    dsimp only
    have hprep' : isPrepared (addPodReference ci pod.uid) = true := by
      show (addPodReference ci pod.uid).prepared = true
      rw [(addPodReference_fields ci pod.uid).2.2.1, hprep]
    rw [if_pos hprep']
  simp only [prepareResources, hA, htxn]
  simp only [preparePhaseB, phaseBLoop, preparePhaseC, stepLoop]
  cases env.checkpointOk <;> simp

theorem c2aux_unprep_multi (env : Env) (pod : Pod) (cache : Cache) (pc : PodResourceClaim)
    (rc : ResourceClaim) (ci : ClaimInfo)
    (hpod : pod.resourceClaims = [pc])
    (hresolve : env.resolveName pod pc = .ok (some rc.name, false))
    (hns : rc.namespc = pod.namespc)
    (hget : cacheGet cache rc.name rc.namespc = some ci)
    (hlen : 1 < ci.podUIDs.length) :
    (unprepareResources env pod cache).rpcs = [] ∧
    cacheGet (unprepareResources env pod cache).cache rc.name rc.namespc =
      some (deletePodReference ci pod.uid) := by
  have hget' : cacheGet cache rc.name pod.namespc = some ci := hns ▸ hget
  have hstep : unpreparePodClaimStep env pod pc
      { cache := cache, batches := [], claimNames := [] } =
      .ok (unprepareClaimTxn pod rc.name { cache := cache, batches := [], claimNames := [] }) := by
    simp [unpreparePodClaimStep, hresolve]
  have htxn : unprepareClaimTxn pod rc.name { cache := cache, batches := [], claimNames := [] } =
      { cache := cacheUpdate cache rc.name pod.namespc (fun c => deletePodReference c pod.uid),
        batches := [], claimNames := [] } := by
    simp only [unprepareClaimTxn]
    rw [hget']
    dsimp only
    rw [if_pos hlen]
  have hA : stepLoop (unpreparePodClaimStep env pod) pod.resourceClaims
      { cache := cache, batches := [], claimNames := [] } =
      .ok { cache := cacheUpdate cache rc.name pod.namespc (fun c => deletePodReference c pod.uid),
            batches := [], claimNames := [] } := by
    rw [hpod]
    simp only [stepLoop, hstep, htxn]
  have hgetU : cacheGet (cacheUpdate cache rc.name pod.namespc
      (fun c => deletePodReference c pod.uid)) rc.name rc.namespc =
      some (deletePodReference ci pod.uid) := by
    rw [hns, cacheGet_update_self (keyPres_deletePodReference pod.uid), hget']
    rfl
  simp only [unprepareResources, hA]
  simp only [unprepPhaseB, phaseBLoop]
  cases env.checkpointOk <;> simp [hgetU]

theorem c2aux_unprep_last (env : Env) (pod : Pod) (cache : Cache) (pc : PodResourceClaim)
    (rc : ResourceClaim) (ci : ClaimInfo)
    (hpod : pod.resourceClaims = [pc])
    (hresolve : env.resolveName pod pc = .ok (some rc.name, false))
    (hns : rc.namespc = pod.namespc)
    (hget : cacheGet cache rc.name rc.namespc = some ci)
    (hlen : ci.podUIDs.length = 1)
    (hhandles : ci.resourceHandles ≠ [])
    (hresult : (unprepareResources env pod cache).result = none) :
    (unprepareResources env pod cache).rpcs ≠ [] := by
  have hget' : cacheGet cache rc.name pod.namespc = some ci := hns ▸ hget
  have hstep : unpreparePodClaimStep env pod pc
      { cache := cache, batches := [], claimNames := [] } =
      .ok (unprepareClaimTxn pod rc.name { cache := cache, batches := [], claimNames := [] }) := by
    simp [unpreparePodClaimStep, hresolve]
  have hnotgt : ¬(ci.podUIDs.length > 1) := by omega
  have htxn : unprepareClaimTxn pod rc.name { cache := cache, batches := [], claimNames := [] } =
      { cache := cache,
        batches := List.foldl
          (fun bs rh => assocAppend bs (unpreparePluginName ci rh) (mkDraClaim ci rh))
          [] ci.resourceHandles,
        claimNames := assocInsert [] ci.claimUID ci.claimName } := by
    simp only [unprepareClaimTxn]
    rw [hget']
    dsimp only
    rw [if_neg hnotgt]
  have hA : stepLoop (unpreparePodClaimStep env pod) pod.resourceClaims
      { cache := cache, batches := [], claimNames := [] } =
      .ok { cache := cache,
            batches := List.foldl
              (fun bs rh => assocAppend bs (unpreparePluginName ci rh) (mkDraClaim ci rh))
              [] ci.resourceHandles,
            claimNames := assocInsert [] ci.claimUID ci.claimName } := by
    rw [hpod]
    simp only [stepLoop, hstep, htxn]
  have hbne : List.foldl
      (fun bs rh => assocAppend bs (unpreparePluginName ci rh) (mkDraClaim ci rh))
      [] ci.resourceHandles ≠ [] := by
    cases hrh : ci.resourceHandles with
    | nil => exact absurd hrh hhandles
    | cons rh0 rest =>
      simp only [List.foldl_cons]
      exact foldl_assocAppend_ne_nil _ _ rest _
        (assocAppend_ne_nil [] (unpreparePluginName ci rh0) (mkDraClaim ci rh0))
  obtain ⟨b, bs, hcons⟩ := List.exists_cons_of_ne_nil hbne
  simp only [unprepareResources, hA] at hresult ⊢
  rw [hcons] at hresult ⊢
  cases hB : unprepPhaseB env (assocInsert [] ci.claimUID ci.claimName) pod.namespc
      (b :: bs) cache [] with
  | mk err cacheB trB =>
    rw [hB] at hresult
    cases err with
    | some e => simp at hresult
    | none =>
      unfold unprepPhaseB at hB
      have htr := phaseBLoop_trace_ne_nil (by rw [hB] :
        (phaseBLoop env.connect env.nodeUnprepare
          (fun _p claims entry c => processUnprepareResponseEntry
            (assocInsert [] ci.claimUID ci.claimName) pod.namespc claims entry c)
          "failed to get DRA Plugin client" "NodeUnprepareResources failed"
          "NodeUnprepareResources left out claims" (b :: bs) cache []).err = none)
      rw [hB] at htr
      cases env.checkpointOk <;> exact htr

theorem phaseBLoop_single_trace {connect : String → Except String Unit}
    {call : String → List DraClaim → Except String (List (String × ClaimResult))}
    {entryStep : String → List DraClaim → (String × ClaimResult) → Cache → Except String Cache}
    {cE lE oE : String} {b : String × List DraClaim} {cache : Cache}
    (hok : (phaseBLoop connect call entryStep cE lE oE [b] cache []).err = none) :
    (phaseBLoop connect call entryStep cE lE oE [b] cache []).trace = [b] := by
  obtain ⟨p, claims⟩ := b
  cases hc : connect p with
  | error e => simp only [phaseBLoop, hc] at hok; cases hok
  | ok u =>
    cases hcall : call p claims with
    | error e => simp only [phaseBLoop, hc, hcall] at hok; cases hok
    | ok response =>
      cases hsl : stepLoop (entryStep p claims) response cache with
      | error pr =>
        obtain ⟨e, cacheE⟩ := pr
        simp only [phaseBLoop, hc, hcall, hsl] at hok
        cases hok
      | ok cache1 =>
        simp only [phaseBLoop, hc, hcall, hsl] at hok ⊢
        by_cases hlen : (Int.ofNat claims.length) - (Int.ofNat response.length) != 0
        · rw [if_pos hlen] at hok; cases hok
        · rw [if_neg hlen] at hok ⊢
          simp [phaseBLoop]

theorem c2aux_first_caller (env : Env) (pod : Pod) (cache : Cache) (pc : PodResourceClaim)
    (rc : ResourceClaim)
    (hpod : pod.resourceClaims = [pc])
    (hresolve : env.resolveName pod pc = .ok (some rc.name, false))
    (hfetch : env.fetchClaim pod.namespc rc.name = .ok rc)
    (hres : isReservedForPod pod rc = true)
    (hused : claimIsUsedByPod pc pod = true)
    (hgetnone : cacheGet cache rc.name rc.namespc = none)
    (hhandles : rc.resourceHandles ≠ [])
    (hresult : (prepareResources env pod cache).result = none) :
    (prepareResources env pod cache).rpcs.length = 1 ∧
    (∃ b, b ∈ (prepareResources env pod cache).rpcs ∧ ∃ cl, cl ∈ b.2 ∧ cl.uid = rc.uid) ∧
    (∃ ci', cacheGet (prepareResources env pod cache).cache rc.name rc.namespc = some ci' ∧
      ci'.prepared = true) := by
  have hstep : preparePodClaimStep env pod pc
      { cache := cache, batches := [], resourceClaims := [], processed := [] } =
      .ok (prepareClaimTxn pod rc
        { cache := cache, batches := [], resourceClaims := [], processed := [rc] }) := by
    simp [preparePodClaimStep, hresolve, hfetch, hres, hused]
  have hnotsome : ¬((cacheGet cache rc.name rc.namespc).isSome = true) := by
    rw [hgetnone]; simp
  have hg1 : cacheGet (prepareTxnCache pod rc cache) rc.name rc.namespc =
      some (addPodReference (newClaimInfoFromClaim rc) pod.uid) := by
    unfold prepareTxnCache
    rw [if_neg hnotsome, cacheGet_update_self (keyPres_addPodReference pod.uid)]
    rw [cacheGet_add_cases rc.name rc.namespc, if_pos ⟨rfl, rfl⟩]
    rfl
  have hprepP : ¬(isPrepared (addPodReference (newClaimInfoFromClaim rc) pod.uid) = true) := by
    show ¬((addPodReference (newClaimInfoFromClaim rc) pod.uid).prepared = true)
    rw [(addPodReference_fields _ pod.uid).2.2.1]
    simp [newClaimInfoFromClaim]
  have htxn : prepareClaimTxn pod rc
      { cache := cache, batches := [], resourceClaims := [], processed := [rc] } =
      { cache := prepareTxnCache pod rc cache,
        batches := [(rc.driverName, rc.resourceHandles.map
          (mkDraClaim (addPodReference (newClaimInfoFromClaim rc) pod.uid)))],
        resourceClaims := [(rc.uid, rc)],
        processed := [rc] } := by
    simp only [prepareClaimTxn]
    rw [hg1]
    dsimp only
    rw [if_neg hprepP]
    rw [prepare_fold_batches_nil (addPodReference (newClaimInfoFromClaim rc) pod.uid)
      ((addPodReference (newClaimInfoFromClaim rc) pod.uid).resourceHandles) hhandles]
    rfl
  have hA : stepLoop (preparePodClaimStep env pod) pod.resourceClaims
      { cache := cache, batches := [], resourceClaims := [], processed := [] } =
      .ok { cache := prepareTxnCache pod rc cache,
            batches := [(rc.driverName, rc.resourceHandles.map
              (mkDraClaim (addPodReference (newClaimInfoFromClaim rc) pod.uid)))],
            resourceClaims := [(rc.uid, rc)],
            processed := [rc] } := by
    rw [hpod]
    simp only [stepLoop, hstep, htxn]
  simp only [prepareResources, hA] at hresult ⊢
  cases hB : preparePhaseB env [(rc.uid, rc)]
      [(rc.driverName, rc.resourceHandles.map
        (mkDraClaim (addPodReference (newClaimInfoFromClaim rc) pod.uid)))]
      (prepareTxnCache pod rc cache) [] with
  | mk err cacheB trB =>
    rw [hB] at hresult
    cases err with
    | some e => simp at hresult
    | none =>
      have htrace : trB = [(rc.driverName, rc.resourceHandles.map
          (mkDraClaim (addPodReference (newClaimInfoFromClaim rc) pod.uid)))] := by
        have h1 := @phaseBLoop_single_trace _ _ _ _ _ _ (rc.driverName, rc.resourceHandles.map
            (mkDraClaim (addPodReference (newClaimInfoFromClaim rc) pod.uid)))
          (prepareTxnCache pod rc cache)
          (show (phaseBLoop env.connect env.nodePrepare
            (fun p claims entry c => processPrepareResponseEntry p claims [(rc.uid, rc)] entry c)
            "failed to get DRA Plugin client" "NodePrepareResources failed"
            "NodePrepareResources left out claims"
            [(rc.driverName, rc.resourceHandles.map
              (mkDraClaim (addPodReference (newClaimInfoFromClaim rc) pod.uid)))]
            (prepareTxnCache pod rc cache) []).err = none from by
              unfold preparePhaseB at hB
              rw [hB])
        unfold preparePhaseB at hB
        rw [hB] at h1
        exact h1
      dsimp only at hresult ⊢
      unfold preparePhaseC at hresult ⊢
      cases hC : stepLoop markPreparedStep [(rc.uid, rc)] cacheB with
      | error pr =>
        obtain ⟨e, cacheC⟩ := pr
        rw [hC] at hresult
        simp at hresult
      | ok cacheC =>
        rw [hC] at hresult
        cases hck : env.checkpointOk with
        | false =>
          rw [hck] at hresult
          simp at hresult
        | true =>
          dsimp only
          subst htrace
          obtain ⟨rh0, rest, hrh⟩ := List.exists_cons_of_ne_nil hhandles
          refine ⟨rfl, ?_, ?_⟩
          · refine ⟨_, List.mem_singleton.mpr rfl, ?_⟩
            refine ⟨mkDraClaim (addPodReference (newClaimInfoFromClaim rc) pod.uid) rh0, ?_, rfl⟩
            rw [hrh]
            exact List.mem_cons_self _ _
          · simp only [stepLoop] at hC
            cases hms : markPreparedStep (rc.uid, rc) cacheB with
            | error e => rw [hms] at hC; cases hC
            | ok cacheM =>
              rw [hms] at hC
              simp only [stepLoop] at hC
              injection hC with hC
              subst hC
              have hshape := markPreparedStep_ok_shape hms
              have hgB : ∃ x, cacheGet cacheB rc.name rc.namespc = some x := by
                unfold markPreparedStep at hms
                cases hg : cacheGet cacheB rc.name rc.namespc with
                | none => rw [hg] at hms; cases hms
                | some x => exact ⟨x, rfl⟩
              obtain ⟨x, hx⟩ := hgB
              refine ⟨setPrepared x, ?_, rfl⟩
              rw [hshape]
              show cacheGet (cacheUpdate cacheB rc.name rc.namespc setPrepared)
                rc.name rc.namespc = some (setPrepared x)
              rw [cacheGet_update_self keyPres_setPrepared, hx]
              rfl

/-! ## Claim theorems -/

/-- C1: the claim states that in both `PrepareResources` and
`UnprepareResources` a resource handle is batched under the handle's own
driver name when non-empty, else the claim's driver name.  The code does so
only in `UnprepareResources`; in `PrepareResources` the fallback is a no-op
(`pluginName := claimInfo.DriverName; if pluginName == "" { pluginName =
claimInfo.DriverName }`), contradicting the comment above it.  At a record
whose only handle names `driver-b` while the claim's driver is `driver-a`,
the prepare RPC is batched under `driver-a` and the unprepare RPC under
`driver-b`. -/
theorem c1_driver_name_divergence :
    ciC1.resourceHandles.map (fun rh => rh.driverName) = ["driver-b"] ∧
    ciC1.driverName = "driver-a" ∧
    (prepareResources envC1 podC1 []).result = none ∧
    (prepareResources envC1 podC1 []).rpcs.map Prod.fst = ["driver-a"] ∧
    (unprepareResources envC1 podC1 [ciC1]).result = none ∧
    (unprepareResources envC1 podC1 [ciC1]).rpcs.map Prod.fst = ["driver-b"] := by
  exact ⟨rfl, rfl, rfl, rfl, rfl, rfl⟩

/-- C3: the claim states that two consecutive `UnprepareResources` calls for
the same workload leave the same cache state and the second call issues no
RPC.  Counterexample: `claim-c` is referenced by `pod-p` and `pod-q`.  The
first call for `pod-p` removes only its reference (no RPC) and succeeds; the
second call finds the record with the single remaining reference `pod-q`,
and — because the code only tests `len(PodUIDs) > 1` and never whether this
pod still holds a reference — issues an unprepare RPC and deletes the record
that `pod-q` still needs. -/
theorem c3_unprepare_second_call_not_noop :
    (unprepareResources envC3 podC3 cacheC3).result = none ∧
    (unprepareResources envC3 podC3 cacheC3).rpcs = [] ∧
    cacheGet (unprepareResources envC3 podC3 cacheC3).cache "claim-c" "ns" =
      some { ciC3 with podUIDs := ["pod-q"] } ∧
    (unprepareResources envC3 podC3 ((unprepareResources envC3 podC3 cacheC3).cache)).result
      = none ∧
    (unprepareResources envC3 podC3 ((unprepareResources envC3 podC3 cacheC3).cache)).rpcs
      ≠ [] ∧
    cacheGet (unprepareResources envC3 podC3
      ((unprepareResources envC3 podC3 cacheC3).cache)).cache "claim-c" "ns" = none := by
  refine ⟨rfl, rfl, rfl, rfl, ?_, rfl⟩
  decide

/-- C8: the `prepared` flag is monotonic — neither `PrepareResources` nor
`UnprepareResources` ever resets it from true to false while the record stays
in the cache (the three read-only operations `GetResources`,
`GetContainerClaimInfos` and `PodMightNeedToUnprepareResources` take no
cache argument back in this embedding: by construction they mutate nothing). -/
theorem c8_prepared_monotonic (env : Env) (pod : Pod) (cache : Cache) (n ns : String)
    (ci : ClaimInfo) (hget : cacheGet cache n ns = some ci) (hprep : ci.prepared = true) :
    (∀ ci', cacheGet (prepareResources env pod cache).cache n ns = some ci' →
      ci'.prepared = true) ∧
    (∀ ci', cacheGet (unprepareResources env pod cache).cache n ns = some ci' →
      ci'.prepared = true) := by
  constructor
  · intro ci' h'
    rcases prepare_prepEvolve env pod cache n ns ci hget with ⟨ci'', h'', hp''⟩
    rw [h'] at h''
    injection h'' with h''
    subst h''
    exact hp'' hprep
  · intro ci' h'
    rcases unprep_unprepEvolve env pod cache n ns ci' h' with ⟨ci0, h0, hp0⟩
    rw [hget] at h0
    injection h0 with h0
    subst h0
    exact hp0.trans hprep

/-- Witness for C8 at a concrete prepared record. -/
theorem c8_prepared_monotonic_witness : ciC8.prepared = true ∧ ciC8.prepared = true :=
  ⟨(c8_prepared_monotonic envC8 podC8 cacheC8 "claim-g" "ns" ciC8 rfl rfl).1 ciC8 rfl,
   (c8_prepared_monotonic envC8 podC8 cacheC8 "claim-g" "ns" ciC8 rfl rfl).2 ciC8 rfl⟩

/-- C9: `PodMightNeedToUnprepareResources` returns true exactly when some
cached record lists the workload-instance identifier among its pod
references; the operation only reads the cache (in the embedding it is a
pure function of it). -/
theorem c9_pod_might_need_iff (cache : Cache) (uid : String) :
    podMightNeedToUnprepareResources cache uid = true ↔
      ∃ ci, ci ∈ cache ∧ uid ∈ ci.podUIDs := by
  simp [podMightNeedToUnprepareResources, hasPodReference, List.any_eq_true]

/-- C10: the claim states `GetContainerClaimInfos` skips a pod claim whose
reference resolves to no claim name before any cache lookup, as
`GetResources` does.  The code omits the nil-check: on the same input
`GetResources` succeeds while `GetContainerClaimInfos` dereferences the nil
claim name. -/
theorem c10_nil_claim_name_deref :
    getContainerClaimInfos envC10 podC10 containerC10 [] = Outcome.nilDeref ∧
    getResources envC10 podC10 containerC10 [] =
      Outcome.ok { annotationList := [], cdiDevices := [] } := by
  exact ⟨rfl, rfl⟩

/-- C5 counterexample: the claim states that pod references already present
before a failing `PrepareResources` call remain present afterwards.  Here
`pod-p` already holds a reference on the prepared record of `claim-c`; the
call fails on `claim-d` (not reserved for the pod), and the compensating
defer removes `pod-p`'s pre-existing reference from `claim-c`. -/
theorem c5_preexisting_reference_removed :
    (prepareResources envC5 podC5 cacheC5).result ≠ none ∧
    cacheGet cacheC5 "claim-c" "ns" = some ciC5 ∧
    "pod-p" ∈ ciC5.podUIDs ∧
    cacheGet (prepareResources envC5 podC5 cacheC5).cache "claim-c" "ns" =
      some { ciC5 with podUIDs := [] } := by
  refine ⟨?_, rfl, ?_, rfl⟩
  · decide
  · decide


/-- C4: if some plugin's `NodePrepareResources` response names fewer claims
than that plugin's request batch, `PrepareResources` returns an error and no
claim record has its `prepared` flag set during the call: the final
mark-prepared-and-checkpoint transaction is only reached when every batch
passed the completeness check, so a record prepared in the final cache was
already prepared before the call. -/
theorem c4_incomplete_response (env : Env) (pod : Pod) (cache : Cache) (st : PrepState)
    (p : String) (claims : List DraClaim) (resp : List (String × ClaimResult))
    (hA : stepLoop (preparePodClaimStep env pod) pod.resourceClaims
        { cache := cache, batches := [], resourceClaims := [], processed := [] } = .ok st)
    (hb : (p, claims) ∈ st.batches)
    (hresp : env.nodePrepare p claims = .ok resp)
    (hlt : resp.length < claims.length) :
    (prepareResources env pod cache).result ≠ none ∧
    NoNewPrepared cache (prepareResources env pod cache).cache := by
  have hBerr : (preparePhaseB env st.resourceClaims st.batches st.cache []).err ≠ none := by
    intro hnone
    unfold preparePhaseB at hnone
    rcases phaseBLoop_ok_complete st.batches st.cache [] hnone p claims hb with
      ⟨resp', _, hcall', hlen'⟩
    rw [hresp] at hcall'
    injection hcall' with hcall'
    subst hcall'
    omega
  have hNNP_A : NoNewPrepared cache st.cache :=
    stepLoop_ok_inv (fun a s s' h hp => noNewPrepared_trans hp (prepareStep_noNewPrepared h))
      pod.resourceClaims _ st hA (noNewPrepared_refl cache)
  have hNNP_B : NoNewPrepared cache
      (preparePhaseB env st.resourceClaims st.batches st.cache []).cache := by
    unfold preparePhaseB
    exact phaseBLoop_cache_inv
      (fun p' claims' e c c' h hp => noNewPrepared_trans hp (prepEntry_noNewPrepared h))
      st.batches st.cache [] hNNP_A
  simp only [prepareResources, hA]
  cases hB : preparePhaseB env st.resourceClaims st.batches st.cache [] with
  | mk err cacheB trB =>
    rw [hB] at hNNP_B hBerr
    cases err with
    | none => exact absurd rfl hBerr
    | some e =>
      dsimp only
      dsimp only at hNNP_B
      exact ⟨by simp, noNewPrepared_trans hNNP_B (compensate_noNewPrepared pod st.processed cacheB)⟩

/-- Witness for C4: plugin answering with an empty response; the call fails. -/
theorem c4_incomplete_response_witness :
    (prepareResources envC4 podC4 []).result ≠ none :=
  (c4_incomplete_response envC4 podC4 [] stC4 "driver-a" [mkDraClaim ciC4 rhC4] []
    rfl (by decide) rfl (by decide)).1


/-- C5 (amended): if `PrepareResources` returns an error then, for every
claim processed in that call, the workload's pod reference is removed from
that claim's record before returning — even when that reference already
existed before the call began — and pod references of other workloads that
were present before the call remain present afterwards.  (The original claim
additionally asserted that references already present before the call always
survive; `c5_preexisting_reference_removed` refutes that for the calling
workload's own pre-existing reference.) -/
theorem c5_compensation (env : Env) (pod : Pod) (cache : Cache)
    (hresult : (prepareResources env pod cache).result ≠ none) :
    (∀ rc, rc ∈ (prepareResources env pod cache).processed →
      ∀ ci', cacheGet (prepareResources env pod cache).cache rc.name rc.namespc = some ci' →
        pod.uid ∉ ci'.podUIDs) ∧
    KeepsOtherRefs pod.uid cache (prepareResources env pod cache).cache := by
  have hstepA : ∀ (a : PodResourceClaim) (st st' : PrepState),
      preparePodClaimStep env pod a st = .ok st' →
      KeepsOtherRefs pod.uid cache st.cache → KeepsOtherRefs pod.uid cache st'.cache :=
    fun a st st' h hp => keepsOtherRefs_trans hp (prepareStep_keepsOtherRefs h)
  simp only [prepareResources] at hresult ⊢
  cases hA : stepLoop (preparePodClaimStep env pod) pod.resourceClaims
      { cache := cache, batches := [], resourceClaims := [], processed := [] } with
  | error p =>
    obtain ⟨e, st⟩ := p
    dsimp only
    have h1 : KeepsOtherRefs pod.uid cache st.cache :=
      stepLoop_error_inv hstepA pod.resourceClaims _ e st hA (keepsOtherRefs_refl _ _)
    exact ⟨fun rc hm ci' h hmem => compensate_not_mem pod st.processed st.cache rc hm ci' h hmem,
      keepsOtherRefs_trans h1 (compensate_keepsOtherRefs pod st.processed st.cache)⟩
  | ok st =>
    rw [hA] at hresult
    dsimp only at hresult ⊢
    have h1 : KeepsOtherRefs pod.uid cache st.cache :=
      stepLoop_ok_inv hstepA pod.resourceClaims _ st hA (keepsOtherRefs_refl _ _)
    have h2 : KeepsOtherRefs pod.uid cache
        (preparePhaseB env st.resourceClaims st.batches st.cache []).cache := by
      unfold preparePhaseB
      exact phaseBLoop_cache_inv
        (fun p' claims' e c c' h hp => keepsOtherRefs_trans hp (prepEntry_keepsOtherRefs h))
        st.batches st.cache [] h1
    cases hB : preparePhaseB env st.resourceClaims st.batches st.cache [] with
    | mk err cacheB trB =>
      rw [hB] at h2 hresult
      dsimp only at h2 hresult
      cases err with
      | some e =>
        dsimp only
        exact ⟨fun rc hm ci' h hmem =>
            compensate_not_mem pod st.processed cacheB rc hm ci' h hmem,
          keepsOtherRefs_trans h2 (compensate_keepsOtherRefs pod st.processed cacheB)⟩
      | none =>
        dsimp only at hresult ⊢
        have hstepC : ∀ (a : String × ResourceClaim) (c c' : Cache),
            markPreparedStep a c = .ok c' →
            KeepsOtherRefs pod.uid cache c → KeepsOtherRefs pod.uid cache c' :=
          fun a c c' h hp => keepsOtherRefs_trans hp (markStep_keepsOtherRefs h)
        unfold preparePhaseC at hresult ⊢
        cases hC : stepLoop markPreparedStep st.resourceClaims cacheB with
        | error p =>
          obtain ⟨e, cacheC⟩ := p
          dsimp only
          have h3 : KeepsOtherRefs pod.uid cache cacheC :=
            stepLoop_error_inv hstepC st.resourceClaims cacheB e cacheC hC h2
          exact ⟨fun rc hm ci' h hmem =>
              compensate_not_mem pod st.processed cacheC rc hm ci' h hmem,
            keepsOtherRefs_trans h3 (compensate_keepsOtherRefs pod st.processed cacheC)⟩
        | ok cacheC =>
          rw [hC] at hresult
          dsimp only at hresult
          have h3 : KeepsOtherRefs pod.uid cache cacheC :=
            stepLoop_ok_inv hstepC st.resourceClaims cacheB cacheC hC h2
          cases hck : env.checkpointOk with
          | true =>
            rw [hck] at hresult
            exact absurd rfl hresult
          | false =>
            exact ⟨fun rc hm ci' h hmem =>
                compensate_not_mem pod st.processed cacheC rc hm ci' h hmem,
              keepsOtherRefs_trans h3 (compensate_keepsOtherRefs pod st.processed cacheC)⟩

/-- Witness for C5's amended statement on the concrete failing call. -/
theorem c5_compensation_witness : "pod-p" ∉ ciC5after.podUIDs :=
  (c5_compensation envC5 podC5 cacheC5 (by decide)).1 rcC5c (by decide) ciC5after rfl


/-- C6: when the final checkpoint of `UnprepareResources` fails, the call
returns an error, but the in-memory cache is exactly the one produced by the
RPC phase: every record whose release RPC succeeded (every claim named in a
plugin's response) remains deleted — the deletion is not rolled back. -/
theorem c6_checkpoint_failure (env : Env) (pod : Pod) (cache : Cache) (st : UnprepState)
    (hA : stepLoop (unpreparePodClaimStep env pod) pod.resourceClaims
        { cache := cache, batches := [], claimNames := [] } = .ok st)
    (hB : (unprepPhaseB env st.claimNames pod.namespc st.batches st.cache []).err = none)
    (hck : env.checkpointOk = false) :
    (unprepareResources env pod cache).result ≠ none ∧
    (unprepareResources env pod cache).cache =
      (unprepPhaseB env st.claimNames pod.namespc st.batches st.cache []).cache ∧
    ∀ p claims, (p, claims) ∈ st.batches → ∀ resp, env.nodeUnprepare p claims = .ok resp →
      ∀ e, e ∈ resp →
        cacheGet (unprepareResources env pod cache).cache
          ((assocLookup st.claimNames e.1).getD "") pod.namespc = none := by
  have hdel := unprepPhaseB_deletes env st.claimNames pod.namespc st.batches st.cache [] hB
  simp only [unprepareResources, hA]
  cases hBmk : unprepPhaseB env st.claimNames pod.namespc st.batches st.cache [] with
  | mk err cacheB trB =>
    rw [hBmk] at hB hdel
    dsimp only at hB hdel ⊢
    subst hB
    dsimp only
    rw [hck]
    refine ⟨by simp, rfl, ?_⟩
    intro p claims hm resp hresp e he
    exact hdel p claims hm resp hresp e he

/-- Witness for C6: the release of `claim-e` succeeds, the checkpoint fails;
the call errors and the record stays deleted. -/
theorem c6_checkpoint_failure_witness :
    (unprepareResources envC6 podC6 cacheC6).result ≠ none ∧
    cacheGet (unprepareResources envC6 podC6 cacheC6).cache "claim-e" "ns" = none :=
  ⟨(c6_checkpoint_failure envC6 podC6 cacheC6 stC6 rfl rfl rfl).1,
   (c6_checkpoint_failure envC6 podC6 cacheC6 stC6 rfl rfl rfl).2.2 "driver-b"
     [mkDraClaim ciC6 rhC6] (by decide) [("uid-e", { error := "", cdiDevices := [] })] rfl
     ("uid-e", { error := "", cdiDevices := [] }) (by decide)⟩


/-- C7: when the pod is not listed in a referenced claim's reservation set,
`PrepareResources` returns an error, dispatches no plugin RPC at all, and
adds no reference of this pod to that claim's record: the reservation check
sits before the cache transaction and the whole per-claim loop aborts before
any batch dispatch.  The coherence hypothesis `hcoh` states that the API
server returns the claim stored under the requested name and namespace. -/
theorem c7_reservation_guard (env : Env) (pod : Pod) (cache : Cache) (pc : PodResourceClaim)
    (rc : ResourceClaim) (mco : Bool)
    (hmem : pc ∈ pod.resourceClaims)
    (hresolve : env.resolveName pod pc = .ok (some rc.name, mco))
    (hfetch : env.fetchClaim pod.namespc rc.name = .ok rc)
    (hcoh : ∀ n c, env.fetchClaim pod.namespc n = .ok c → c.name = n ∧ c.namespc = pod.namespc)
    (howner : mco = true → env.isForPod pod rc = .ok ())
    (hres : isReservedForPod pod rc = false) :
    (prepareResources env pod cache).result ≠ none ∧
    (prepareResources env pod cache).rpcs = [] ∧
    ∀ ci', cacheGet (prepareResources env pod cache).cache rc.name pod.namespc = some ci' →
      pod.uid ∈ ci'.podUIDs →
      ∃ ci, cacheGet cache rc.name pod.namespc = some ci ∧ pod.uid ∈ ci.podUIDs := by
  have herr : ∀ st : PrepState, ∃ e, preparePodClaimStep env pod pc st = .error e := by
    intro st
    refine ⟨"pod is not allowed to use resource claim", ?_⟩
    unfold preparePodClaimStep
    rw [hresolve]
    dsimp only
    rw [hfetch]
    dsimp only
    have hown : (if mco = true then env.isForPod pod rc else Except.ok ()) = Except.ok () := by
      cases mco
      · rfl
      · exact howner rfl
    rw [hown]
    dsimp only
    simp [hres]
  rcases stepLoop_error_of_mem herr pod.resourceClaims
      { cache := cache, batches := [], resourceClaims := [], processed := [] } hmem with
    ⟨e, stE, hsl⟩
  have hstepP : ∀ (a : PodResourceClaim) (st st' : PrepState),
      preparePodClaimStep env pod a st = .ok st' →
      (∀ ci', cacheGet st.cache rc.name pod.namespc = some ci' → pod.uid ∈ ci'.podUIDs →
        ∃ ci, cacheGet cache rc.name pod.namespc = some ci ∧ pod.uid ∈ ci.podUIDs) →
      (∀ ci', cacheGet st'.cache rc.name pod.namespc = some ci' → pod.uid ∈ ci'.podUIDs →
        ∃ ci, cacheGet cache rc.name pod.namespc = some ci ∧ pod.uid ∈ ci.podUIDs) := by
    intro a st st' hok hP
    rcases preparePodClaimStep_ok_cases hok with rfl | ⟨cn', mco', rc', hres', hf', hr', hu', rfl⟩
    · exact hP
    · rw [prepareClaimTxn_cache]
      intro ci' hget hmem'
      rcases hcoh cn' rc' hf' with ⟨hn, hns⟩
      by_cases hkey : rc.name = rc'.name
      · exfalso
        have hcn : cn' = rc.name := by rw [hkey, hn]
        rw [hcn, hfetch] at hf'
        injection hf' with hf'
        subst hf'
        rw [hres] at hr'
        cases hr'
      · have hne : ¬(rc.name = rc'.name ∧ pod.namespc = rc'.namespc) := fun hc => hkey hc.1
        rw [prepareTxnCache_get_other hne] at hget
        exact hP ci' hget hmem'
  have hPE : ∀ ci', cacheGet stE.cache rc.name pod.namespc = some ci' →
      pod.uid ∈ ci'.podUIDs →
      ∃ ci, cacheGet cache rc.name pod.namespc = some ci ∧ pod.uid ∈ ci.podUIDs :=
    stepLoop_error_inv hstepP pod.resourceClaims _ e stE hsl
      (fun ci' hget hmem' => ⟨ci', hget, hmem'⟩)
  simp only [prepareResources, hsl]
  refine ⟨by simp, by trivial, ?_⟩
  intro ci' hget hmem'
  rcases compensate_origin pod stE.processed stE.cache rc.name pod.namespc ci' hget with
    ⟨ci0, hget0, _, hsub⟩
  exact hPE ci0 hget0 (hsub pod.uid hmem')

/-- Witness for C7: pod not in the reservation set of `claim-f`. -/
theorem c7_reservation_guard_witness : (prepareResources envC7 podC7 []).rpcs = [] :=
  (c7_reservation_guard envC7 podC7 [] pcC7 rcC7 false (by decide) rfl rfl
    (by
      intro n c h
      simp only [envC7] at h
      split at h
      · rename_i hcond
        injection h with h
        subst h
        simp only [Bool.and_eq_true, beq_iff_eq] at hcond
        exact ⟨hcond.2.symm ▸ rfl, rfl⟩
      · cases h)
    (fun h => nomatch h) rfl).2.1


/-- C2: per-claim RPC discipline behind the reference counting.  For a pod
whose single claim reference resolves to claim `rc` (reserved for the pod and
used by a container): (1) a caller that finds the record already prepared
adds no prepare request and the call dispatches no RPC; (2) the first caller
(no record yet), when the call succeeds, dispatches exactly one prepare RPC,
that RPC carries the claim, and the record ends up prepared — so later
callers fall into case (1); (3) an unprepare call that finds more than one
remaining pod reference removes only this pod's reference and dispatches no
RPC; (4) the unprepare call that finds exactly one remaining reference (the
last one) dispatches the release RPC when it succeeds. -/
theorem c2_rpc_once_per_claim (env : Env) (pod : Pod) (cache : Cache) (pc : PodResourceClaim)
    (rc : ResourceClaim)
    (hpod : pod.resourceClaims = [pc])
    (hresolve : env.resolveName pod pc = .ok (some rc.name, false))
    (hfetch : env.fetchClaim pod.namespc rc.name = .ok rc)
    (hns : rc.namespc = pod.namespc)
    (hres : isReservedForPod pod rc = true)
    (hused : claimIsUsedByPod pc pod = true) :
    (∀ ci, cacheGet cache rc.name rc.namespc = some ci → ci.prepared = true →
      (prepareResources env pod cache).rpcs = []) ∧
    (cacheGet cache rc.name rc.namespc = none → rc.resourceHandles ≠ [] →
      (prepareResources env pod cache).result = none →
      (prepareResources env pod cache).rpcs.length = 1 ∧
      (∃ b, b ∈ (prepareResources env pod cache).rpcs ∧ ∃ cl, cl ∈ b.2 ∧ cl.uid = rc.uid) ∧
      (∃ ci', cacheGet (prepareResources env pod cache).cache rc.name rc.namespc = some ci' ∧
        ci'.prepared = true)) ∧
    (∀ ci, cacheGet cache rc.name rc.namespc = some ci → 1 < ci.podUIDs.length →
      (unprepareResources env pod cache).rpcs = [] ∧
      cacheGet (unprepareResources env pod cache).cache rc.name rc.namespc =
        some (deletePodReference ci pod.uid)) ∧
    (∀ ci, cacheGet cache rc.name rc.namespc = some ci → ci.podUIDs.length = 1 →
      ci.resourceHandles ≠ [] → (unprepareResources env pod cache).result = none →
      (unprepareResources env pod cache).rpcs ≠ []) := by
  refine ⟨?_, ?_, ?_, ?_⟩
  · intro ci hget hprep
    exact c2aux_prepared_skip env pod cache pc rc ci hpod hresolve hfetch hres hused hget hprep
  · intro hgetnone hhandles hresult
    exact c2aux_first_caller env pod cache pc rc hpod hresolve hfetch hres hused hgetnone
      hhandles hresult
  · intro ci hget hlen
    exact c2aux_unprep_multi env pod cache pc rc ci hpod hresolve hns hget hlen
  · intro ci hget hlen hhandles hresult
    exact c2aux_unprep_last env pod cache pc rc ci hpod hresolve hns hget hlen hhandles hresult

/-- Witness for C2 at a prepared cached record: the call issues no RPC. -/
theorem c2_rpc_once_per_claim_witness : (prepareResources envC2 podC2 [ciC2]).rpcs = [] :=
  (c2_rpc_once_per_claim envC2 podC2 [ciC2] pcC2 rcC2 rfl rfl rfl rfl (by decide)
    (by decide)).1 ciC2 rfl rfl

end DraManager
